import Mathlib

/-!
Verification development for the SLR_ID-Meta-analysis harvesting/enrichment
pipeline.  The definitions below are shallow embeddings of the Python sources:

  * `collect_broad.py` / `collect_precise.py` (identical `fetch_with_retries`
    and `run_mode` pagination logic),
  * `_xtract_n_xport/utils.py` (`normalize_doi`, `deterministic_json`),
  * `_xtract_n_xport/export.py` (`DATA_COLUMNS`, `export_extracted`),
  * `_xtract_n_xport/s2.py` (`S2Client` retry loops, `author_batch`,
    `enrich_extract` and its derived-field computation).

Conventions: machine I/O (HTTP, sleeps, file writes) is modelled by explicit
oracles / outcome streams and event lists; pandas dataframes are modelled as a
column list plus a row-major list of cell values; Python `int` is `Int`,
Python strings are `String` (ASCII-level fidelity for whitespace/digit/case
classes).  the numpy float mean is modelled as an exact rational; no proved
claim depends on the numeric value of that cell.
-/

namespace SLR

/-- The Python `str.strip()` whitespace class (ASCII part: space, \t, \n, \r,
\x0b, \x0c); also the ASCII part of the regex class `\s` used by
`re.match`/`re.search` in the sources. -/
def pySpaceChar (c : Char) : Bool :=
  c == ' ' || c == '\t' || c == '\n' || c == '\r' || c == '\x0b' || c == '\x0c'

/-- Strip characters satisfying `p` from the left end of a list. -/
def stripLeft (p : Char → Bool) (l : List Char) : List Char :=
  l.dropWhile p

/-- Strip characters satisfying `p` from the right end of a list. -/
def stripRight (p : Char → Bool) (l : List Char) : List Char :=
  (l.reverse.dropWhile p).reverse

/-- Python `s.strip()` on the character list of `s`. -/
def pyStrip (l : List Char) : List Char :=
  stripRight pySpaceChar (stripLeft pySpaceChar l)

/-- Python `s.strip()` at `String` level. -/
def pyStripStr (s : String) : String :=
  String.mk (pyStrip s.data)

/-- Python `s.strip('/')`: slashes removed from both ends. -/
def stripSlashes (l : List Char) : List Char :=
  stripRight (fun c => c == '/') (stripLeft (fun c => c == '/') l)

/-- Value of a decimal digit string, as computed by Python `int(...)` on a
string of digits. -/
def natOfDigits (l : List Char) : Nat :=
  l.foldl (fun n c => 10 * n + (c.toNat - 48)) 0

/-- Case-insensitive prefix removal: `ciDrop pat l` returns the remainder of
`l` after a (lowercased) match of `pat`, or `none` when `pat` is not a
case-insensitive prefix of `l`.  `pat` is given in lowercase. -/
def ciDrop : List Char → List Char → Option (List Char)
  | [], l => some l
  | _ :: _, [] => none
  | p :: ps, c :: cs => if Char.toLower c == p then ciDrop ps cs else none

/-- The anchored, case-insensitive substitution
`re.sub(r'^https?://(dx\.)?doi\.org/', '', s, flags=re.I)` from
`utils.normalize_doi`.  The four alternatives of the regular expression are
mutually exclusive as prefixes, so trying them in any fixed order is faithful. -/
def dropDoiUrlPfx (l : List Char) : List Char :=
  match ciDrop ("https://dx.doi.org/").data l with
  | some r => r
  | none =>
    match ciDrop ("http://dx.doi.org/").data l with
    | some r => r
    | none =>
      match ciDrop ("https://doi.org/").data l with
      | some r => r
      | none =>
        match ciDrop ("http://doi.org/").data l with
        | some r => r
        | none => l

/-- Embedding of `utils.normalize_doi`: empty-check, strip, drop a doi.org URL prefix,
strip whitespace then surrounding slashes, lowercase; reject candidates
containing a space (U+0020) or lacking a slash. -/
def normalize_doi (s : String) : String :=
  if s.data.isEmpty then ""
  else
    let l1 := pyStrip s.data
    let l2 := dropDoiUrlPfx l1
    let l3 := stripSlashes (pyStrip l2)
    let l4 := l3.map Char.toLower
    if l4.contains ' ' || !(l4.contains '/') then "" else String.mk l4

/-- One attempted match of `re.search(r'https?://(?:dx\.)?doi\.org/([^\s]+)', url, re.I)`
at the head of `l`: the remainder after the prefix, if the prefix matches here. -/
def tryDoiAt (l : List Char) : Option (List Char) :=
  match ciDrop ("https://dx.doi.org/").data l with
  | some r => some r
  | none =>
    match ciDrop ("http://dx.doi.org/").data l with
    | some r => some r
    | none =>
      match ciDrop ("https://doi.org/").data l with
      | some r => some r
      | none =>
        match ciDrop ("http://doi.org/").data l with
        | some r => some r
        | none => none

/-- The search for a doi.org URL inside the open-access PDF URL
(`enrich_extract`, group 1 of the pattern above): leftmost position where the
prefix matches and at least one non-whitespace character follows; the group is
the maximal run of non-whitespace characters. -/
def searchDoiUrl : List Char → Option (List Char)
  | [] => none
  | c :: rest =>
    match tryDoiAt (c :: rest) with
    | some rem =>
      let g := rem.takeWhile (fun ch => !(pySpaceChar ch))
      if g.isEmpty then searchDoiUrl rest else some g
    | none => searchDoiUrl rest

/-- The page-range parse of `enrich_extract`
(`re.match(r"\s*(\d+)\s*-\s*(\d+)\s*$", pages_s)`): optional whitespace,
digits, optional whitespace, a dash, optional whitespace, digits, optional
whitespace, end of string.  Returns the two integer groups. -/
def parsePagesRange (l : List Char) : Option (Nat × Nat) :=
  let t1 := l.dropWhile pySpaceChar
  let d1 := t1.takeWhile Char.isDigit
  if d1.isEmpty then none
  else
    match (t1.dropWhile Char.isDigit).dropWhile pySpaceChar with
    | [] => none
    | c :: t3 =>
      if c = '-' then
        let t4 := t3.dropWhile pySpaceChar
        let d2 := t4.takeWhile Char.isDigit
        if d2.isEmpty then none
        else if ((t4.dropWhile Char.isDigit).dropWhile pySpaceChar).isEmpty then
          some (natOfDigits d1, natOfDigits d2)
        else none
      else none

/-- The `pages_total` derivation of `enrich_extract` (lines 282-286): when the
journal page-range string matches `<int>-<int>` and the end is at least the
start, `end - start + 1`; otherwise unset. -/
def pagesTotal (s : String) : Option Nat :=
  match parsePagesRange s.data with
  | some (a, b) => if b ≥ a then some (b - a + 1) else none
  | none => none

/-! ## Dataframe model -/

/-- A pandas cell value as used by the pipeline: strings, Python ints, bools,
and the numpy float mean (modelled as an exact rational). -/
inductive Value where
  | str (s : String)
  | int (n : Int)
  | bool (b : Bool)
  | rat (q : ℚ)
deriving DecidableEq, Repr

/-- Python truthiness of a cell value. -/
def valueTruthy : Value → Bool
  | .str s => !(s.isEmpty)
  | .int n => n != 0
  | .bool b => b
  | .rat q => q != 0

/-- Python `str(x)` on a cell value.  (For rationals, the Python float `repr`
differs; no claim depends on that rendering.) -/
def valueToStr : Value → String
  | .str s => s
  | .int n => toString n
  | .bool b => if b then "True" else "False"
  | .rat q => toString q

/-- A pandas dataframe: ordered column names and row-major cells.  Well-formed
frames (`DataFrame.WF`) have every row of the same length as the column list. -/
structure DataFrame where
  cols : List String
  rows : List (List Value)
deriving DecidableEq, Repr

/-- Every row has exactly one cell per column. -/
def DataFrame.WF (df : DataFrame) : Prop :=
  ∀ r ∈ df.rows, r.length = df.cols.length

instance (df : DataFrame) : Decidable df.WF := by
  unfold DataFrame.WF; infer_instance

/-- Index of the first occurrence of column `c`. -/
def colIdx : List String → String → Option Nat
  | [], _ => none
  | c0 :: rest, c => if c0 = c then some 0 else (colIdx rest c).map (· + 1)

/-- Cell at row `i`, column `c` (`df.at[i, c]` read). -/
def getCellN (df : DataFrame) (i : Nat) (c : String) : Option Value :=
  match colIdx df.cols c with
  | some j => (df.rows.get? i).bind fun r => r.get? j
  | none => none

/-- A whole column, as `df[c]` / `df.get(c)` would read it. -/
def getColN (df : DataFrame) (c : String) : Option (List Value) :=
  match colIdx df.cols c with
  | some j => some (df.rows.map fun r => r.getD j (Value.str ""))
  | none => none

/-- Pandas `df[c] = v` with a scalar: overwrite the column when present, else append
it at the end (pandas column-assignment broadcast). -/
def setConstCol (df : DataFrame) (c : String) (v : Value) : DataFrame :=
  match colIdx df.cols c with
  | some j => { cols := df.cols, rows := df.rows.map fun r => r.set j v }
  | none => { cols := df.cols ++ [c], rows := df.rows.map fun r => r ++ [v] }

/-- Pandas `df.at[i, c] = v` for an existing column and row; a no-op on a missing
column or row (the sources only write columns created beforehand, at row
labels produced by `iterrows`). -/
def setCell (df : DataFrame) (i : Nat) (c : String) (v : Value) : DataFrame :=
  match colIdx df.cols c with
  | some j =>
    match df.rows.get? i with
    | some r => { cols := df.cols, rows := df.rows.set i (r.set j v) }
    | none => df
  | none => df

/-- Read a cell of a raw row by column name, with the empty string standing in
for a missing column (`row.get(c, "")`). -/
def rowGetD (cols : List String) (r : List Value) (c : String) : Value :=
  match colIdx cols c with
  | some j => r.getD j (Value.str "")
  | none => Value.str ""

/-- Loop `for c in L: if c not in df.columns: df[c] = ""` — shared by
`export_extracted` and the explicit-column loop of `enrich_extract`. -/
def ensureCols (L : List String) (df : DataFrame) : DataFrame :=
  match L with
  | [] => df
  | c :: L' => ensureCols L' (if c ∈ df.cols then df else setConstCol df c (Value.str ""))

/-- Pandas `df[L]`: projection onto the schema columns, in schema order. -/
def projectCols (df : DataFrame) (L : List String) : DataFrame :=
  { cols := L, rows := df.rows.map fun r => L.map fun c => rowGetD df.cols r c }

/-! ## Retry loops

The HTTP loops are embedded over an explicit stream of per-attempt outcomes:
each element of the list is what one `requests` call produces (a response with
a status code and body, or a raised network exception).  Sleeps are elided
(time is not modelled); an exhausted stream while the loop would keep going is
reported as `retrying`. -/

/-- Outcome of one HTTP attempt, with body type `β`. -/
inductive Attempt (β : Type) where
  | resp (status : Nat) (body : β)
  | netExc
deriving DecidableEq, Repr

/-- Result of `collect_broad.py` / `collect_precise.py` `fetch_with_retries`:
the function only ever returns a response (there is no failure value). -/
inductive FetchResult (β : Type) where
  | returned (status : Nat) (body : β)
  | retrying
deriving DecidableEq, Repr

/-- Embedding of `fetch_with_retries` of `collect_broad.py` and `collect_precise.py`
(identical in both): network exceptions, 429, 500, 502, 503 and 504 are all
slept on and retried; any other status is returned to the caller. -/
def fetch_with_retries {β : Type} : List (Attempt β) → FetchResult β
  | [] => .retrying
  | .netExc :: rest => fetch_with_retries rest
  | .resp s b :: rest =>
    if s = 429 || s = 500 || s = 502 || s = 503 || s = 504 then fetch_with_retries rest
    else .returned s b

/-- Result of an `S2Client` loop: `failure` is Python `None`. -/
inductive PostResult (β : Type) where
  | success (body : β)
  | failure
  | retrying
deriving DecidableEq, Repr

/-- The loop body of `S2Client._post_json`, carrying the attempt counter:
200 succeeds; 429/500 retry forever; 502/503 retry while
`attempt < max(1, max_retries)` and then fail; any other status fails at
once; a network exception retries under the same `max(1, max_retries)` bound. -/
def s2PostJsonGo {β : Type} (maxRetries : Nat) : Nat → List (Attempt β) → PostResult β
  | _, [] => .retrying
  | a, o :: rest =>
    let att := a + 1
    match o with
    | .netExc => if max 1 maxRetries ≤ att then .failure else s2PostJsonGo maxRetries att rest
    | .resp s b =>
      if s = 200 then .success b
      else if s = 429 || s = 500 then s2PostJsonGo maxRetries att rest
      else if s = 502 || s = 503 then
        if max 1 maxRetries ≤ att then .failure else s2PostJsonGo maxRetries att rest
      else .failure

/-- Embedding of `S2Client._post_json`, starting from attempt 0. -/
def s2PostJson {β : Type} (maxRetries : Nat) (outcomes : List (Attempt β)) : PostResult β :=
  s2PostJsonGo maxRetries 0 outcomes

/-- One entry of a references-endpoint response (`data` / `references` item):
the optional `year` of the nested `citedPaper` object (with `none` standing
for an absent `citedPaper` dict or an absent field, and `nonInt` for a present
non-integer year), and the optional `year` of the item itself. -/
inductive JYear where
  | int (n : Int)
  | nonInt
deriving DecidableEq, Repr

structure RefItem where
  citedPaperYear : Option (Option JYear)
  itemYear : Option JYear
deriving DecidableEq, Repr

/-- Year extraction of `S2Client.references_years` on a 200 body: take the
`citedPaper` year when the nested dict is present and carries the field
(falling back to the `year` of the item itself only when the nested year is `None`),
then keep integers only. -/
def refYears (items : List RefItem) : List Int :=
  items.filterMap fun it =>
    let y : Option JYear :=
      match it.citedPaperYear with
      | some (some v) => some v
      | some none => it.itemYear
      | none => it.itemYear
    match y with
    | some (.int n) => some n
    | _ => none

/-- The loop body of `S2Client.references_years`: same status/exception
discipline as `_post_json` (GET instead of POST), with a 200 body parsed by
`refYears`. -/
def referencesYearsGo (maxRetries : Nat) : Nat → List (Attempt (List RefItem)) → PostResult (List Int)
  | _, [] => .retrying
  | a, o :: rest =>
    let att := a + 1
    match o with
    | .netExc => if max 1 maxRetries ≤ att then .failure else referencesYearsGo maxRetries att rest
    | .resp s b =>
      if s = 200 then .success (refYears b)
      else if s = 429 || s = 500 then referencesYearsGo maxRetries att rest
      else if s = 502 || s = 503 then
        if max 1 maxRetries ≤ att then .failure else referencesYearsGo maxRetries att rest
      else .failure

/-- Embedding of `S2Client.references_years`, starting from attempt 0. -/
def referencesYearsRun (maxRetries : Nat) (outcomes : List (Attempt (List RefItem))) : PostResult (List Int) :=
  referencesYearsGo maxRetries 0 outcomes

/-! ## Paged fetching (`run_mode`) -/

/-- One bulk-search response: HTTP status, the `data` records (abstracted to
an abstract record type `Nat`), and the optional continuation `token`. -/
structure BulkResponse where
  status : Nat
  data : List Nat
  token : Option String
deriving DecidableEq, Repr

/-- Python truthiness of `page_json.get('token')`: present and non-empty. -/
def tokenTruthy : Option String → Bool
  | none => false
  | some t => !(t.isEmpty)

/-- The pagination loop of `run_mode` (`collect_broad.py`; `collect_precise.py`
is identical).  `srv` maps the continuation token of the request (the search
parameters are fixed throughout the walk) to the response of the server; `fuel`
bounds the walk so the model is total.  Returns the tokens of the requests
issued in order, the accumulated `data_buffer`, and whether the loop finished
(`false` means the fuel ran out while the walk would continue).  A non-200
response ends the mode (its error body is persisted and a note recorded)
without contributing records; the records of a 200 response are appended and the
walk continues exactly when its token is truthy. -/
def runModeGo (srv : Option String → BulkResponse) :
    Nat → Option String → List (Option String) × List Nat × Bool
  | 0, _ => ([], [], false)
  | fuel + 1, tok =>
    let resp := srv tok
    if resp.status ≠ 200 then ([tok], [], true)
    else if tokenTruthy resp.token then
      let r := runModeGo srv fuel resp.token
      (tok :: r.1, resp.data ++ r.2.1, r.2.2)
    else ([tok], resp.data, true)

/-- The fixed export schema of `_xtract_n_xport/export.py`. -/
def DATA_COLUMNS : List String :=
  ["mode", "paperId", "title", "publication_date", "year",
   "publication_types", "fields_of_study",
   "influential_citation_count", "citation_count",
   "abstract", "external_ids", "doi", "is_open_access", "open_access_pdf_url",
   "journal_pages_range", "pages_total", "references_pages", "references_count", "_max_cited_year",
   "authors_hindex_list", "mean_author_hindex",
   "_prov_csv_row", "_mode_display"]

/-- Embedding of `export.export_extracted`: default every missing schema column to the
empty string, then project onto the schema (the projection is what is written
as the single spreadsheet sheet). -/
def export_extracted (df : DataFrame) : DataFrame :=
  projectCols (ensureCols DATA_COLUMNS df) DATA_COLUMNS

/-! ## Enrichment (`_xtract_n_xport/s2.py`) -/

/-- An author entry of a paper object: `a.get("authorId")` and the nested
`a.get("author", {}).get("authorId")`. -/
structure SAuthor where
  authorId : Option String
  nestedAuthorId : Option String
deriving DecidableEq, Repr

/-- An author-batch record: id fields as in `SAuthor` plus an `hIndex` that is
retained only when it is a Python `int` (hence `Option Int`). -/
structure AuthorRec where
  authorId : Option String
  nestedAuthorId : Option String
  hIndex : Option Int
deriving DecidableEq, Repr

/-- A paper-batch record, with exactly the fields `enrich_extract` reads.
`none` uniformly stands for an absent field or a value of the wrong dynamic
type (the code guards every read with `isinstance`/truthiness checks). -/
structure SPaper where
  paperId : Option String
  nestedPaperId : Option String
  abstract : Option String
  externalIds : Option (List (String × Value))
  isOpenAccess : Option Bool
  openAccessPdfUrl : Option String
  journalPages : Option String
  referenceCount : Option Int
  citationCount : Option Int
  authors : List SAuthor
deriving Repr

/-- The network, as seen through the `S2Client` calls made by
`enrich_extract`: each function returns what the corresponding client method
returns after its internal retry loop (`none` is Python `None`, i.e. failure). -/
structure S2Oracle where
  paperBatch : List String → Option (List SPaper)
  authorBatch : List String → Option (List AuthorRec)
  referencesYears : String → Option (List Int)

/-- Observable side effects of a client call. -/
inductive S2Event where
  | httpAuthorBatch (ids : List String)
  | appendAuthorsJsonl (records : Nat)
deriving DecidableEq, Repr

/-- Embedding of `S2Client.author_batch`: an empty id list short-circuits to `[]` before
any HTTP request or provenance append; otherwise one POST is issued and, on
success, the records are appended to `authors_batch.jsonl`. -/
def author_batch (o : S2Oracle) (ids : List String) : Option (List AuthorRec) × List S2Event :=
  if ids.isEmpty then (some [], [])
  else
    match o.authorBatch ids with
    | none => (none, [.httpAuthorBatch ids])
    | some data => (some data, [.httpAuthorBatch ids, .appendAuthorsJsonl data.length])

/-- Python `x or y or ""` for two optional strings (used for the
`authorId`/`paperId` fallback chains). -/
def firstTruthy (a b : Option String) : String :=
  match a with
  | some s =>
    if s.isEmpty then
      match b with
      | some t => if t.isEmpty then "" else t
      | none => ""
    else s
  | none =>
    match b with
    | some t => if t.isEmpty then "" else t
    | none => ""

/-- Worker for `chunkList`: `acc` is the current chunk (reversed) and `cap`
the remaining capacity of that chunk. -/
def chunkGo (bs : Nat) : List α → List α → Nat → List (List α)
  | [], acc, _ => if acc.isEmpty then [] else [acc.reverse]
  | x :: xs, acc, cap =>
    if cap ≤ 1 then (x :: acc).reverse :: chunkGo bs xs [] bs
    else chunkGo bs xs (x :: acc) (cap - 1)

/-- The `ids[i:i+bs]` chunking of the batch loops (`range(0, len(ids), bs)`):
successive slices of length `bs`, the last one possibly shorter.  A zero
batch size raises in Python and is never configured; the model returns no
chunks in that case. -/
def chunkList (bs : Nat) (l : List α) : List (List α) :=
  if bs = 0 then [] else chunkGo bs l [] bs

/-- Issue one call per chunk, concatenating the results in order and aborting
on the first failure (later chunks are then never issued). -/
def fetchBatches {α : Type} (f : List String → Option (List α)) : List (List String) → Option (List α)
  | [] => some []
  | ch :: rest =>
    match f ch with
    | none => none
    | some d => (fetchBatches f rest).map fun ds => d ++ ds

/-- The paper ids harvested from the input frame: the `paperId` column as
strings, empty strings dropped (`[str(x) for x in ... if x]`). -/
def enrichIds (df : DataFrame) : List String :=
  match getColN df "paperId" with
  | some col => (col.map valueToStr).filter fun s => !(s.isEmpty)
  | none => []

/-- Key under which a paper-batch record is indexed:
`str(p.get("paperId") or p.get("paper", {}).get("paperId") or "")`. -/
def paperKey (p : SPaper) : String :=
  firstTruthy p.paperId p.nestedPaperId

/-- Lookup `by_id.get(pid)`: dict built by insertion order, so the last record with a
given key wins. -/
def lookupById (papers : List SPaper) (pid : String) : Option SPaper :=
  (papers.filter fun p => paperKey p == pid).getLast?

/-- The author ids collected from the paper records (lines 147-162 of
`s2.py`): the `authorId` / nested fallback, stringified and stripped, empty
results dropped. -/
def collectAuthorIds (papers : List SPaper) : List String :=
  papers.flatMap fun p =>
    p.authors.filterMap fun a =>
      let s := pyStripStr (firstTruthy a.authorId a.nestedAuthorId)
      if s.isEmpty then none else some s

/-- Lexicographic code-point comparison of strings (`s <= t` as Python
compares strings). -/
def lexLeChars : List Char → List Char → Bool
  | [], _ => true
  | _ :: _, [] => false
  | a :: as, b :: bs =>
    if a.toNat < b.toNat then true
    else if b.toNat < a.toNat then false
    else lexLeChars as bs

/-- Insertion into a weakly-sorted list (ascending code-point order, the
order `sorted` produces on strings). -/
def insertSorted (s : String) : List String → List String
  | [] => [s]
  | t :: ts => if lexLeChars s.data t.data then s :: t :: ts else t :: insertSorted s ts

/-- Python `sorted(set(l))` for strings. -/
def sortedDistinct (l : List String) : List String :=
  l.eraseDups.foldr insertSorted []

/-- Key of an author-batch record (lines 172-185): id fallback chain,
stripped; records with an empty key are skipped. -/
def authorKey (r : AuthorRec) : String :=
  pyStripStr (firstTruthy r.authorId r.nestedAuthorId)

/-- The `author_info` dict: one entry per keyed record, last write wins. -/
def buildAuthorInfo (recs : List AuthorRec) : List (String × AuthorRec) :=
  recs.filterMap fun r =>
    let k := authorKey r
    if k.isEmpty then none else some (k, r)

/-- Dict lookup in `author_info` (last binding wins). -/
def lookupLastA (l : List (String × AuthorRec)) (k : String) : Option AuthorRec :=
  ((l.filter fun p => p.1 == k).getLast?).map Prod.snd

/-- Dict lookup in a JSON object such as `externalIds` (duplicate keys in
source JSON resolve to the last one, as in the Python parser). -/
def lookupLastV (l : List (String × Value)) (k : String) : Option Value :=
  ((l.filter fun p => p.1 == k).getLast?).map Prod.snd

/-- Lower-case hexadecimal digit. -/
def hexDigitChar (d : Nat) : Char :=
  if d < 10 then Char.ofNat (48 + d) else Char.ofNat (87 + d)

/-- Two-digit lower-case hex rendering of a byte. -/
def hex2 (n : Nat) : String :=
  String.mk [hexDigitChar (n / 16), hexDigitChar (n % 16)]

/-- The `json.dumps` escaping of one character (`ensure_ascii=False`). -/
def jsonEscapeChar (c : Char) : String :=
  if c == '"' then "\\\""
  else if c == '\\' then "\\\\"
  else if c == '\n' then "\\n"
  else if c == '\t' then "\\t"
  else if c == '\r' then "\\r"
  else if c == '\x08' then "\\b"
  else if c == '\x0c' then "\\f"
  else if c.toNat < 32 then "\\u00" ++ hex2 c.toNat
  else String.mk [c]

/-- A JSON string literal. -/
def jsonString (s : String) : String :=
  "\"" ++ String.join (s.data.map jsonEscapeChar) ++ "\""

/-- A JSON scalar.  (Rationals model Python floats; their rendering is not
relied upon by any claim.) -/
def jsonValueStr : Value → String
  | .str s => jsonString s
  | .int n => toString n
  | .bool b => if b then "true" else "false"
  | .rat q => toString q

/-- Embedding of `utils.deterministic_json`: `json.dumps(obj, sort_keys=True,
ensure_ascii=False)` on a JSON object. -/
def deterministic_json (l : List (String × Value)) : String :=
  let keys := sortedDistinct (l.map Prod.fst)
  "\x7b" ++
    String.intercalate ", "
      (keys.map fun k => jsonString k ++ ": " ++ jsonValueStr ((lookupLastV l k).getD (Value.str ""))) ++
    "\x7d"

/-- Python `int(float(s))` on a stripped non-empty string, restricted to
optionally-signed decimal literals (the forms the `year` column produces;
exponents, `inf`/`nan` and digit underscores are out of scope and rejected,
matching `citing_year = None` on exception).  Truncation is toward zero. -/
def pyIntOfFloatStr (s : String) : Option Int :=
  let (sign, l1) : Bool × List Char :=
    match s.data with
    | '-' :: rest => (true, rest)
    | '+' :: rest => (false, rest)
    | l => (false, l)
  let d1 := l1.takeWhile Char.isDigit
  let intPart : Option Nat :=
    match l1.dropWhile Char.isDigit with
    | [] => if d1.isEmpty then none else some (natOfDigits d1)
    | '.' :: frac =>
      if d1.isEmpty && (frac.takeWhile Char.isDigit).isEmpty then none
      else if (frac.dropWhile Char.isDigit).isEmpty then some (natOfDigits d1)
      else none
    | _ => none
  intPart.map fun n => if sign then -(n : Int) else (n : Int)

/-- The year of the citing paper, read from the input frame (lines 202-215 of
`s2.py`): first row whose stringified `paperId` equals `pid`, its `year` cell
stringified and stripped, parsed via `int(float(...))`; `None` on any failure. -/
def citingYearOf (df : DataFrame) (pid : String) : Option Int :=
  match colIdx df.cols "paperId" with
  | none => none
  | some j =>
    match df.rows.find? (fun r => valueToStr (r.getD j (Value.str "")) == pid) with
    | none => none
    | some r =>
      match colIdx df.cols "year" with
      | none => none
      | some jy =>
        let s := pyStripStr (valueToStr (r.getD jy (Value.str "")))
        if s.isEmpty then none else pyIntOfFloatStr s

/-- Python `max` on a non-empty list of ints (never called on `[]`). -/
def pyMax (l : List Int) : Int :=
  match l with
  | [] => 0
  | x :: xs => xs.foldl max x

/-- The per-paper maximum-cited-year computation of `enrich_extract` (lines
190-227): references lookup failure or an empty year list leaves the field
unset; with a known citing year, years above it are discarded and the maximum
of the remainder is taken (the citing year itself when nothing remains); with
no citing year, the plain maximum.  The `isinstance(y, int)` re-filter of the
source is the identity here because `references_years` already returns
integers only, so its emptiness check is unreachable. -/
def computeMaxCitedYear (citingYear : Option Int) (yrsRes : Option (List Int)) : Option Int :=
  match yrsRes with
  | none => none
  | some yrs =>
    if yrs.isEmpty then none
    else
      match citingYear with
      | some cy =>
        let yrsBefore := yrs.filter fun y => y ≤ cy
        if yrsBefore.isEmpty then some cy else some (pyMax yrsBefore)
      | none => some (pyMax yrs)

/-- The columns `enrich_extract` creates with empty-string defaults before the
per-row population loop. -/
def enrichEnsureCols : List String :=
  ["abstract", "external_ids", "doi", "is_open_access", "open_access_pdf_url", "journal_pages_range",
   "pages_total", "references_pages", "references_count", "_max_cited_year", "authors_hindex_list",
   "mean_author_hindex", "citation_count"]

/-- All columns the enrichment may create or write, including the flag. -/
def enrichTouchedCols : List String :=
  enrichEnsureCols ++ ["s2_enriched"]

/-- Test `not str(out.at[i, "doi"]).strip()` — the current `doi` cell is blank. -/
def doiBlank (d : DataFrame) (i : Nat) : Bool :=
  (pyStripStr (valueToStr ((getCellN d i "doi").getD (Value.str "")))).isEmpty

/-- Line 248, `if p.get("abstract"): out.at[i, "abstract"] = ...`. -/
def stepAbstract (p : SPaper) (i : Nat) (d : DataFrame) : DataFrame :=
  match p.abstract with
  | some s => if s.isEmpty then d else setCell d i "abstract" (Value.str s)
  | none => d

/-- The DOI fallback of the `externalIds` block (lines 254-260): when the
`doi` cell is still blank, take `ext.get("DOI") or ext.get("doi")`, and write
its normalization when it is a string with a non-empty normalization. -/
def stepExternalDoi (ext : List (String × Value)) (i : Nat) (d : DataFrame) : DataFrame :=
  if doiBlank d i then
    match
      (match lookupLastV ext "DOI" with
       | some v => if valueTruthy v then some v else lookupLastV ext "doi"
       | none => lookupLastV ext "doi") with
    | some (Value.str s) =>
      if (normalize_doi s).isEmpty then d else setCell d i "doi" (Value.str (normalize_doi s))
    | _ => d
  else d

/-- The `externalIds` block (lines 251-260): serialized external ids, then
the DOI fallback. -/
def stepExternal (p : SPaper) (i : Nat) (d : DataFrame) : DataFrame :=
  match p.externalIds with
  | some ext =>
    if ext.isEmpty then d
    else stepExternalDoi ext i (setCell d i "external_ids" (Value.str (deterministic_json ext)))
  | none => d

/-- The `isOpenAccess` block (lines 262-264). -/
def stepIsOpenAccess (p : SPaper) (i : Nat) (d : DataFrame) : DataFrame :=
  match p.isOpenAccess with
  | some b => setCell d i "is_open_access" (Value.str (if b then "TRUE" else "FALSE"))
  | none => d

/-- The DOI fallback of the `openAccessPdf` block (lines 270-275): when the
`doi` cell is still blank, search the URL for a doi.org pattern and write the
normalization of the captured group when non-empty. -/
def stepOapDoi (url : String) (i : Nat) (d : DataFrame) : DataFrame :=
  if doiBlank d i then
    match searchDoiUrl url.data with
    | some g =>
      if (normalize_doi (String.mk g)).isEmpty then d
      else setCell d i "doi" (Value.str (normalize_doi (String.mk g)))
    | none => d
  else d

/-- The `openAccessPdf` block (lines 266-275): the URL cell, then the DOI
fallback from the URL. -/
def stepOpenAccessPdf (p : SPaper) (i : Nat) (d : DataFrame) : DataFrame :=
  match p.openAccessPdfUrl with
  | some url =>
    if url.isEmpty then d
    else stepOapDoi url i (setCell d i "open_access_pdf_url" (Value.str url))
  | none => d

/-- The `pages_total` write of the `journal` block (lines 282-286). -/
def stepPagesTotal (s : String) (i : Nat) (d : DataFrame) : DataFrame :=
  match pagesTotal s with
  | some k => setCell d i "pages_total" (Value.int (k : Int))
  | none => d

/-- The `journal` block (lines 277-286): page-range string and derived
`pages_total`. -/
def stepJournal (p : SPaper) (i : Nat) (d : DataFrame) : DataFrame :=
  match p.journalPages with
  | some s => stepPagesTotal s i (setCell d i "journal_pages_range" (Value.str s))
  | none => d

/-- The `referenceCount` write (lines 288-290). -/
def stepRefCount (p : SPaper) (i : Nat) (d : DataFrame) : DataFrame :=
  match p.referenceCount with
  | some n => setCell d i "references_count" (Value.int n)
  | none => d

/-- The `citationCount` write (lines 292-294). -/
def stepCitCount (p : SPaper) (i : Nat) (d : DataFrame) : DataFrame :=
  match p.citationCount with
  | some n => setCell d i "citation_count" (Value.int n)
  | none => d

/-- The co-author h-index list of a paper record (lines 296-303). -/
def hIndexVals (authorInfo : List (String × AuthorRec)) (p : SPaper) : List Int :=
  p.authors.filterMap fun a =>
    let aid := firstTruthy a.authorId a.nestedAuthorId
    if aid.isEmpty then none
    else
      match lookupLastA authorInfo aid with
      | some ar => ar.hIndex
      | none => none

/-- The h-index block (lines 296-306): semicolon-joined list and numpy mean
(modelled as an exact rational). -/
def stepHIndex (authorInfo : List (String × AuthorRec)) (p : SPaper) (i : Nat)
    (d : DataFrame) : DataFrame :=
  if (hIndexVals authorInfo p).isEmpty then d
  else
    setCell
      (setCell d i "authors_hindex_list"
        (Value.str (String.intercalate "; " ((hIndexVals authorInfo p).map toString))))
      i "mean_author_hindex"
      (Value.rat
        (((hIndexVals authorInfo p).map fun v => (v : ℚ)).sum /
          ((hIndexVals authorInfo p).length : ℚ)))

/-- The `_max_cited_year` write (lines 308-310). -/
def stepMcy (mcy : String → Option Int) (pid : String) (i : Nat) (d : DataFrame) : DataFrame :=
  match mcy pid with
  | some m => setCell d i "_max_cited_year" (Value.int m)
  | none => d

/-- The body of the per-row population loop of `enrich_extract` (lines
242-310), applied to row `i`: the paper record of the row is looked up once, then
the field blocks run in source order. -/
def updateRow (papers : List SPaper) (authorInfo : List (String × AuthorRec))
    (mcy : String → Option Int) (d : DataFrame) (i : Nat) : DataFrame :=
  match lookupById papers (valueToStr (rowGetD d.cols (d.rows.getD i []) "paperId")) with
  | none => d
  | some p =>
    stepMcy mcy (valueToStr (rowGetD d.cols (d.rows.getD i []) "paperId")) i
      (stepHIndex authorInfo p i
        (stepCitCount p i
          (stepRefCount p i
            (stepJournal p i
              (stepOpenAccessPdf p i
                (stepIsOpenAccess p i
                  (stepExternal p i
                    (stepAbstract p i d))))))))

/-- The paper-batch phase of `enrich_extract` (lines 131-142): no calls when
there are no ids, otherwise one `paper_batch` POST per chunk, concatenated;
`none` when some chunk failed. -/
def enrichPapers (df : DataFrame) (bs : Nat) (o : S2Oracle) : Option (List SPaper) :=
  if (enrichIds df).isEmpty then some []
  else fetchBatches o.paperBatch (chunkList bs (enrichIds df))

/-- The author-batch phase of `enrich_extract` (lines 147-171): one
`author_batch` call per chunk of the sorted distinct author ids. -/
def enrichAuthorRecs (bs : Nat) (o : S2Oracle) (papers : List SPaper) : Option (List AuthorRec) :=
  fetchBatches (fun ch => (author_batch o ch).1)
    (chunkList bs (sortedDistinct (collectAuthorIds papers)))

/-- The per-paper `_max_cited_year` lookup table of `enrich_extract` (lines
189-227), as a function: an entry exists only for requested paper ids, with
the value of `computeMaxCitedYear` on the references and citing year of that
paper. -/
def enrichMcy (df : DataFrame) (o : S2Oracle) (pid : String) : Option Int :=
  if (enrichIds df).contains pid then
    computeMaxCitedYear (citingYearOf df pid) (o.referencesYears pid)
  else none

/-- The success path of `enrich_extract` (lines 230-312): copy, ensure the
derived columns, populate every row in order, set the `s2_enriched` flag. -/
def enrichSuccess (df : DataFrame) (o : S2Oracle) (papers : List SPaper)
    (arecs : List AuthorRec) : DataFrame :=
  setConstCol
    ((List.range (ensureCols enrichEnsureCols df).rows.length).foldl
      (updateRow papers (buildAuthorInfo arecs) (enrichMcy df o))
      (ensureCols enrichEnsureCols df))
    "s2_enriched" (Value.bool true)

/-- Embedding of `enrich_extract` (`s2.py` lines 118-333), with the network behind the
oracle `o` and `bs = params["s2"]["batch_size"]`.  A failed paper-batch or
author-batch call returns the input frame with only a false `s2_enriched`
flag; otherwise the derived columns are ensured, every row is populated from
the responses, and the flag is set to true.  (Provenance writes are side
effects outside the returned value.) -/
def enrichExtract (df : DataFrame) (bs : Nat) (o : S2Oracle) : DataFrame :=
  match enrichPapers df bs o with
  | none => setConstCol df "s2_enriched" (Value.bool false)
  | some papers =>
    match enrichAuthorRecs bs o papers with
    | none => setConstCol df "s2_enriched" (Value.bool false)
    | some arecs => enrichSuccess df o papers arecs

/-- The batch-failure condition of `enrichExtract`: some paper-batch call or
some author-batch call returned failure. -/
def enrichAborts (df : DataFrame) (bs : Nat) (o : S2Oracle) : Bool :=
  match enrichPapers df bs o with
  | none => true
  | some papers => (enrichAuthorRecs bs o papers).isNone

/-! ### Concrete fixtures (used to instantiate theorems with hypotheses) -/

/-- A one-row input frame. -/
def dfW : DataFrame :=
  { cols := ["paperId", "year"]
    rows := [[Value.str "P1", Value.str "2020"]] }

/-- An oracle whose batch calls always fail. -/
def oW : S2Oracle :=
  { paperBatch := fun _ => none
    authorBatch := fun _ => none
    referencesYears := fun _ => none }

/-- A two-row input frame with a column the enrichment never writes. -/
def dfW2 : DataFrame :=
  { cols := ["paperId", "year", "keepme"]
    rows := [[Value.str "P1", Value.str "2020", Value.str "a"],
             [Value.str "P2", Value.str "", Value.str "b"]] }

/-- An oracle answering every call successfully. -/
def oW2 : S2Oracle :=
  { paperBatch := fun ids => some (ids.map fun pid =>
      { paperId := some pid, nestedPaperId := none, abstract := some "A",
        externalIds := none, isOpenAccess := some true, openAccessPdfUrl := none,
        journalPages := some "100-110", referenceCount := some 3, citationCount := some 5,
        authors := [⟨some "A1", none⟩] })
    authorBatch := fun ids => some (ids.map fun aid => ⟨some aid, none, some 7⟩)
    referencesYears := fun _ => some [1999, 2030] }

/-- The tail of the `normalize_doi` pipeline after the URL prefix has been
removed; used to relate the four prefix spellings. -/
def doiTail (l : List Char) : String :=
  let l3 := stripSlashes (pyStrip l)
  let l4 := l3.map Char.toLower
  if l4.contains ' ' || !(l4.contains '/') then "" else String.mk l4

/-- The claim side of C7: `s` matches `\s*(\d+)\s*-\s*(\d+)\s*$` with
integer groups `a` and `b`. -/
def PagesDecomp (s : String) (a b : Nat) : Prop :=
  ∃ w1 d1 w2 w3 d2 w4 : List Char,
    s.data = w1 ++ d1 ++ w2 ++ '-' :: (w3 ++ d2 ++ w4)
    ∧ (∀ c ∈ w1, pySpaceChar c = true) ∧ (∀ c ∈ w2, pySpaceChar c = true)
    ∧ (∀ c ∈ w3, pySpaceChar c = true) ∧ (∀ c ∈ w4, pySpaceChar c = true)
    ∧ d1 ≠ [] ∧ d2 ≠ []
    ∧ (∀ c ∈ d1, c.isDigit = true) ∧ (∀ c ∈ d2, c.isDigit = true)
    ∧ a = natOfDigits d1 ∧ b = natOfDigits d2

/-- Frame preservation: `FramePres S d d2` states that `d2` arose from `d`
without touching rows or any column outside `S` — same row count, the
original columns as a prefix (in order), well-formedness preserved, and every
cell of a column outside `S` unchanged. -/
def FramePres (S : List String) (d d' : DataFrame) : Prop :=
  d'.rows.length = d.rows.length
  ∧ (∃ ext, d'.cols = d.cols ++ ext)
  ∧ (d.WF → d'.WF)
  ∧ (d.WF → ∀ (i : Nat) (c : String), c ∈ d.cols → c ∉ S → getCellN d' i c = getCellN d i c)

/-- The server of the C5 counterexample: the first page carries an
empty-string continuation token; the page behind that token holds a further
record. -/
def srvCE : Option String → BulkResponse := fun t =>
  match t with
  | none => ⟨200, [1], some ""⟩
  | some _ => ⟨200, [2], none⟩

/-- The two-page server of the C5 witness. -/
def srvW : Option String → BulkResponse := fun t =>
  match t with
  | none => ⟨200, [1, 2], some "T"⟩
  | some s => if s = "T" then ⟨200, [3], none⟩ else ⟨200, [], none⟩

/-! ## Lemmas: retry loops -/

theorem fetch_with_retries_skip {β : Type} (s : Nat) (b : β)
    (hs : s = 429 ∨ s = 500 ∨ s = 502 ∨ s = 503 ∨ s = 504) :
    ∀ (k : Nat) (rest : List (Attempt β)),
      fetch_with_retries (List.replicate k (Attempt.resp s b) ++ rest) = fetch_with_retries rest := by
  intro k
  induction k with
  | zero => intro rest; rfl
  | succ k ih =>
    intro rest
    have hcond : (s = 429 || s = 500 || s = 502 || s = 503 || s = 504) = true := by
      rcases hs with h | h | h | h | h <;> subst h <;> rfl
    simp only [List.replicate_succ, List.cons_append, fetch_with_retries, hcond, if_true]
    exact ih rest

theorem fetch_with_retries_skip_netExc {β : Type} :
    ∀ (k : Nat) (rest : List (Attempt β)),
      fetch_with_retries (List.replicate k (Attempt.netExc) ++ rest) = fetch_with_retries rest := by
  intro k
  induction k with
  | zero => intro rest; rfl
  | succ k ih =>
    intro rest
    simp only [List.replicate_succ, List.cons_append, fetch_with_retries]
    exact ih rest

theorem s2PostJsonGo_netExc_fail {β : Type} (mr : Nat) :
    ∀ (k a : Nat) (rest : List (Attempt β)), a + k = max 1 mr → 1 ≤ k →
      s2PostJsonGo mr a (List.replicate k (Attempt.netExc) ++ rest) = PostResult.failure := by
  intro k
  induction k with
  | zero => intro a rest _ h1; omega
  | succ k ih =>
    intro a rest hsum _
    simp only [List.replicate_succ, List.cons_append, s2PostJsonGo]
    rcases Nat.eq_zero_or_pos k with hk | hk
    · subst hk
      have : max 1 mr ≤ a + 1 := by omega
      simp [this]
    · have hlt : ¬ (max 1 mr ≤ a + 1) := by omega
      simp only [hlt, if_false]
      exact ih (a + 1) rest (by omega) hk

theorem referencesYearsGo_netExc_fail (mr : Nat) :
    ∀ (k a : Nat) (rest : List (Attempt (List RefItem))), a + k = max 1 mr → 1 ≤ k →
      referencesYearsGo mr a (List.replicate k (Attempt.netExc) ++ rest) = PostResult.failure := by
  intro k
  induction k with
  | zero => intro a rest _ h1; omega
  | succ k ih =>
    intro a rest hsum _
    simp only [List.replicate_succ, List.cons_append, referencesYearsGo]
    rcases Nat.eq_zero_or_pos k with hk | hk
    · subst hk
      have : max 1 mr ≤ a + 1 := by omega
      simp [this]
    · have hlt : ¬ (max 1 mr ≤ a + 1) := by omega
      simp only [hlt, if_false]
      exact ih (a + 1) rest (by omega) hk

/-! ## Claims C2, C3, C10 -/

/-- Claim C2, counterexample to the claim as stated: in `fetch_with_retries`
a 503 response is *not* abandoned after any bounded attempt count — after
1000 consecutive 503 responses the fetcher is still retrying, and a
subsequent 200 is consumed normally instead of the mode having aborted. -/
theorem claim_C2_counterexample :
    fetch_with_retries (List.replicate 1000 (Attempt.resp 503 0) : List (Attempt Nat)) =
        FetchResult.retrying
    ∧ fetch_with_retries
        ((List.replicate 1000 (Attempt.resp 503 0) : List (Attempt Nat)) ++ [Attempt.resp 200 7]) =
        FetchResult.returned 200 7 := by
  constructor
  · have h := fetch_with_retries_skip (β := Nat) 503 0 (by tauto) 1000 []
    rw [List.append_nil] at h
    rw [h]; rfl
  · have h := fetch_with_retries_skip (β := Nat) 503 0 (by tauto) 1000 [Attempt.resp 200 7]
    rw [h]; rfl

/-- Claim C2 (amended): in the paged fetcher `fetch_with_retries`, HTTP
502/503/504 are retried after a fixed short interval *indefinitely*, exactly
like 500 — there is no attempt bound, so the fetcher never stops retrying on
these statuses and they never abort the harvest mode (a mode aborts, with a
recorded note, only when a status outside the retried set is returned and is
not 200). -/
theorem claim_C2_bounded_retry {β : Type} :
    ∀ (k : Nat) (b : β) (rest : List (Attempt β)),
      fetch_with_retries (List.replicate k (Attempt.resp 502 b) ++ rest) = fetch_with_retries rest
      ∧ fetch_with_retries (List.replicate k (Attempt.resp 503 b) ++ rest) = fetch_with_retries rest
      ∧ fetch_with_retries (List.replicate k (Attempt.resp 504 b) ++ rest) = fetch_with_retries rest
      ∧ fetch_with_retries (List.replicate k (Attempt.resp 503 b)) = FetchResult.retrying := by
  intro k b rest
  refine ⟨fetch_with_retries_skip 502 b (by tauto) k rest,
          fetch_with_retries_skip 503 b (by tauto) k rest,
          fetch_with_retries_skip 504 b (by tauto) k rest, ?_⟩
  have h := fetch_with_retries_skip 503 b (by tauto) k ([] : List (Attempt β))
  rw [List.append_nil] at h
  rw [h]; rfl

/-- Claim C3, counterexample to the claim as stated: in the enrichment
client POST loop (`S2Client._post_json`, here with `max_retries = 3`),
three consecutive network exceptions are surfaced as a failure result
(Python `None`) instead of being retried indefinitely. -/
theorem claim_C3_counterexample :
    s2PostJson 3 ([Attempt.netExc, Attempt.netExc, Attempt.netExc] : List (Attempt Nat)) =
      PostResult.failure := by decide

/-- Claim C3 (amended): a network exception is retried indefinitely only in
`fetch_with_retries` of the paged fetcher; in the enrichment client
(`S2Client._post_json` and `S2Client.references_years`) a network exception
is retried only while the attempt count is below `max(1, max_retries)`, and
reaching that bound surfaces a failure result (`None`). -/
theorem claim_C3_netexc_policy :
    ∀ (k : Nat) (rest : List (Attempt Nat)) (mr : Nat) (restP : List (Attempt Nat))
      (restR : List (Attempt (List RefItem))),
      fetch_with_retries (List.replicate k (Attempt.netExc) ++ rest) = fetch_with_retries rest
      ∧ s2PostJson mr (List.replicate (max 1 mr) (Attempt.netExc) ++ restP) = PostResult.failure
      ∧ referencesYearsRun mr (List.replicate (max 1 mr) (Attempt.netExc) ++ restR) =
          PostResult.failure := by
  intro k rest mr restP restR
  refine ⟨fetch_with_retries_skip_netExc k rest, ?_, ?_⟩
  · exact s2PostJsonGo_netExc_fail mr (max 1 mr) 0 restP (by omega) (by omega)
  · exact referencesYearsGo_netExc_fail mr (max 1 mr) 0 restR (by omega) (by omega)

/-- Claim C10: `S2Client.author_batch` on an empty id list returns `[]`
immediately — no HTTP request is issued and nothing is appended to the
authors provenance file (the event list is empty), and the result is a
success value, not a failure. -/
theorem claim_C10_author_batch_empty (o : S2Oracle) :
    author_batch o [] = (some [], []) := rfl

/-! ## Lemmas: list maximum (Python `max`) -/

theorem le_foldl_max (xs : List Int) : ∀ x : Int, x ≤ xs.foldl max x := by
  induction xs with
  | nil => intro x; exact le_refl x
  | cons y ys ih =>
    intro x
    calc x ≤ max x y := le_max_left x y
    _ ≤ ys.foldl max (max x y) := ih (max x y)

theorem mem_le_foldl_max (xs : List Int) : ∀ (x z : Int), z ∈ x :: xs → z ≤ xs.foldl max x := by
  induction xs with
  | nil =>
    intro x z hz
    simp only [List.mem_singleton] at hz
    simp [hz]
  | cons y ys ih =>
    intro x z hz
    simp only [List.foldl_cons]
    rcases List.mem_cons.mp hz with h | h
    · subst h
      calc z ≤ max z y := le_max_left z y
      _ ≤ ys.foldl max (max z y) := le_foldl_max ys (max z y)
    · rcases List.mem_cons.mp h with h2 | h2
      · subst h2
        calc z ≤ max x z := le_max_right x z
        _ ≤ ys.foldl max (max x z) := le_foldl_max ys (max x z)
      · exact ih (max x y) z (List.mem_cons_of_mem _ h2)

theorem foldl_max_mem (xs : List Int) : ∀ x : Int, xs.foldl max x ∈ x :: xs := by
  induction xs with
  | nil => intro x; simp
  | cons y ys ih =>
    intro x
    simp only [List.foldl_cons]
    rcases List.mem_cons.mp (ih (max x y)) with h | h
    · rcases max_choice x y with hm | hm
      · rw [h, hm]; exact List.mem_cons_self x (y :: ys)
      · rw [h, hm]; exact List.mem_cons_of_mem _ (List.mem_cons_self y ys)
    · exact List.mem_cons_of_mem _ (List.mem_cons_of_mem _ h)

theorem pyMax_mem (x : Int) (xs : List Int) : pyMax (x :: xs) ∈ x :: xs := by
  simpa [pyMax] using foldl_max_mem xs x

theorem le_pyMax (x : Int) (xs : List Int) (z : Int) (hz : z ∈ x :: xs) : z ≤ pyMax (x :: xs) := by
  simpa [pyMax] using mem_le_foldl_max xs x z hz

/-! ## Claim C1 -/

/-- Claim C1: the max-cited-year rule of the enrichment derived-field
computation.  When the references lookup fails or yields no integer years the
field is left unset; with a known publication year `y`, reference years above
`y` are discarded and the result is the maximum of the remaining years, or
`y` itself when none remain; with an unknown publication year the result is
the maximum of all reference years.  Consequently, with a known publication
year the result never exceeds it. -/
theorem claim_C1_max_cited_year (yrs : List Int) (y : Int) :
    computeMaxCitedYear (some y) none = none
    ∧ computeMaxCitedYear none none = none
    ∧ computeMaxCitedYear (some y) (some []) = none
    ∧ computeMaxCitedYear none (some []) = none
    ∧ (yrs.filter (fun r => r ≤ y) ≠ [] →
        ∃ m, computeMaxCitedYear (some y) (some yrs) = some m
          ∧ m ∈ yrs.filter (fun r => r ≤ y)
          ∧ ∀ x ∈ yrs.filter (fun r => r ≤ y), x ≤ m)
    ∧ (yrs ≠ [] → yrs.filter (fun r => r ≤ y) = [] →
        computeMaxCitedYear (some y) (some yrs) = some y)
    ∧ (yrs ≠ [] → ∃ m, computeMaxCitedYear none (some yrs) = some m ∧ m ∈ yrs ∧ ∀ x ∈ yrs, x ≤ m)
    ∧ (∀ m, computeMaxCitedYear (some y) (some yrs) = some m → m ≤ y) := by
  refine ⟨rfl, rfl, rfl, rfl, ?_, ?_, ?_, ?_⟩
  · intro hne
    have hyne : yrs ≠ [] := by
      intro h; subst h; simp at hne
    obtain ⟨k, ks, hk⟩ : ∃ k ks, yrs.filter (fun r => r ≤ y) = k :: ks :=
      List.exists_cons_of_ne_nil hne
    refine ⟨pyMax (yrs.filter (fun r => r ≤ y)), ?_, ?_, ?_⟩
    · simp only [computeMaxCitedYear]
      rw [if_neg (by simp [List.isEmpty_iff, hyne]), if_neg (by simp [List.isEmpty_iff, hne])]
    · rw [hk]; exact pyMax_mem k ks
    · intro x hx
      rw [hk] at hx ⊢
      exact le_pyMax k ks x hx
  · intro hyne hfil
    simp only [computeMaxCitedYear]
    rw [if_neg (by simp [List.isEmpty_iff, hyne]), if_pos (by simp [List.isEmpty_iff, hfil])]
  · intro hyne
    obtain ⟨k, ks, hk⟩ : ∃ k ks, yrs = k :: ks := List.exists_cons_of_ne_nil hyne
    subst hk
    exact ⟨pyMax (k :: ks), by simp [computeMaxCitedYear], pyMax_mem k ks, fun x hx => le_pyMax k ks x hx⟩
  · intro m hm
    by_cases hyne : yrs = []
    · subst hyne; simp [computeMaxCitedYear] at hm
    · rw [computeMaxCitedYear] at hm
      rw [if_neg (by simp [List.isEmpty_iff, hyne])] at hm
      by_cases hfil : yrs.filter (fun r => r ≤ y) = []
      · rw [if_pos (by simp [List.isEmpty_iff, hfil])] at hm
        have : y = m := Option.some.inj hm
        omega
      · rw [if_neg (by simp [List.isEmpty_iff, hfil])] at hm
        have hm' : pyMax (yrs.filter (fun r => r ≤ y)) = m := Option.some.inj hm
        obtain ⟨k, ks, hk⟩ : ∃ k ks, yrs.filter (fun r => r ≤ y) = k :: ks :=
          List.exists_cons_of_ne_nil hfil
        have hmem : pyMax (yrs.filter (fun r => r ≤ y)) ∈ yrs.filter (fun r => r ≤ y) := by
          rw [hk]; exact pyMax_mem k ks
        have hle := List.of_mem_filter hmem
        simp only [decide_eq_true_eq] at hle
        omega

/-- Witness for C1 at concrete inputs: with a known year 2020 and references
at 2030 only, the synthetic zero-delay result is 2020; and the bound holds at
a concrete computed maximum. -/
theorem claim_C1_witness :
    computeMaxCitedYear (some 2020) (some ([2030] : List Int)) = some 2020
    ∧ (2015 : Int) ≤ 2020 := by
  constructor
  · exact (claim_C1_max_cited_year [2030] 2020).2.2.2.2.2.1 (by decide) (by decide)
  · exact (claim_C1_max_cited_year [1999, 2015] 2020).2.2.2.2.2.2.2 2015 (by decide)

/-! ## Lemmas: `normalize_doi` -/

theorem toLower_toLower (c : Char) : Char.toLower (Char.toLower c) = Char.toLower c := by
  unfold Char.toLower
  by_cases h : c.toNat ≥ 65 ∧ c.toNat ≤ 90
  · rw [if_pos h]
    have hv : (c.toNat + 32).isValidChar := by
      left
      omega
    have ht : (Char.ofNat (c.toNat + 32)).toNat = c.toNat + 32 := by
      unfold Char.ofNat
      rw [dif_pos hv]
      rfl
    rw [if_neg]
    rw [ht]
    omega
  · rw [if_neg h, if_neg h]

theorem stripRight_append (p : Char → Bool) (w u : List Char)
    (h : List.dropWhile p w.reverse = w.reverse) :
    stripRight p (w ++ u) = w ++ stripRight p u := by
  unfold stripRight
  rw [List.reverse_append, List.dropWhile_append]
  by_cases hc : (List.dropWhile p u.reverse).isEmpty = true
  · rw [if_pos hc, h, List.reverse_reverse]
    have hnil : List.dropWhile p u.reverse = [] := List.isEmpty_iff.mp hc
    rw [hnil]
    simp
  · rw [if_neg hc, List.reverse_append, List.reverse_reverse]

theorem pyStrip_cons_append (c : Char) (cs u : List Char) (h1 : pySpaceChar c = false)
    (h2 : List.dropWhile pySpaceChar (c :: cs).reverse = (c :: cs).reverse) :
    pyStrip ((c :: cs) ++ u) = (c :: cs) ++ stripRight pySpaceChar u := by
  unfold pyStrip stripLeft
  rw [List.cons_append, List.dropWhile_cons, if_neg (by simp [h1]), ← List.cons_append]
  exact stripRight_append pySpaceChar (c :: cs) u h2


theorem normalize_doi_pfx_gen (pfx t : String) (c : Char) (cs : List Char)
    (hd : pfx.data = c :: cs) (hc : pySpaceChar c = false)
    (hrev : List.dropWhile pySpaceChar pfx.data.reverse = pfx.data.reverse)
    (hdrop : ∀ v, dropDoiUrlPfx (pfx.data ++ v) = v) :
    normalize_doi (pfx ++ t) = doiTail (stripRight pySpaceChar t.data) := by
  have hps : pyStrip (pfx.data ++ t.data) = pfx.data ++ stripRight pySpaceChar t.data := by
    rw [hd]
    exact pyStrip_cons_append c cs t.data hc (hd ▸ hrev)
  have hne : ((pfx.data ++ t.data).isEmpty = true) = False := by
    rw [hd]
    simp
  simp only [normalize_doi, String.data_append, hne, if_false, hps, hdrop, doiTail]

/-! ## Claim C6 -/

/-- Claim C6: `normalize_doi` strips a leading doi.org URL prefix
case-insensitively (the result does not depend on which of the prefix
spellings is present), strips surrounding slashes and whitespace and
lowercases the remainder (every character of a non-empty result is
lowercase-fixed), returns the empty string whenever the candidate contains a
space or lacks a slash (every non-empty result is space-free and contains a
slash), and satisfies the three quoted examples. -/
theorem claim_C6_normalize_doi :
    normalize_doi ("https://doi.org/10.1234/ABC") = "10.1234/abc"
    ∧ normalize_doi ("not a doi") = ""
    ∧ normalize_doi ("") = ""
    ∧ (∀ t : String,
        normalize_doi (("https://doi.org/" : String) ++ t) =
            normalize_doi (("HTTPS://DOI.ORG/" : String) ++ t)
        ∧ normalize_doi (("https://doi.org/" : String) ++ t) =
            normalize_doi (("http://dx.doi.org/" : String) ++ t)
        ∧ normalize_doi (("https://doi.org/" : String) ++ t) =
            normalize_doi (("HtTp://Dx.DoI.oRg/" : String) ++ t))
    ∧ (∀ s : String, normalize_doi s = ""
        ∨ ((normalize_doi s).data.contains ' ' = false
            ∧ (normalize_doi s).data.contains '/' = true
            ∧ ∀ c ∈ (normalize_doi s).data, Char.toLower c = c)) := by
  have h1 : ∀ t : String,
      normalize_doi (("https://doi.org/" : String) ++ t) =
        doiTail (stripRight pySpaceChar t.data) := fun t =>
    normalize_doi_pfx_gen _ t 'h' (("ttps://doi.org/").data) rfl (by decide) (by decide)
      (fun v => rfl)
  have h2 : ∀ t : String,
      normalize_doi (("HTTPS://DOI.ORG/" : String) ++ t) =
        doiTail (stripRight pySpaceChar t.data) := fun t =>
    normalize_doi_pfx_gen _ t 'H' (("TTPS://DOI.ORG/").data) rfl (by decide) (by decide)
      (fun v => rfl)
  have h3 : ∀ t : String,
      normalize_doi (("http://dx.doi.org/" : String) ++ t) =
        doiTail (stripRight pySpaceChar t.data) := fun t =>
    normalize_doi_pfx_gen _ t 'h' (("ttp://dx.doi.org/").data) rfl (by decide) (by decide)
      (fun v => rfl)
  have h4 : ∀ t : String,
      normalize_doi (("HtTp://Dx.DoI.oRg/" : String) ++ t) =
        doiTail (stripRight pySpaceChar t.data) := fun t =>
    normalize_doi_pfx_gen _ t 'H' (("tTp://Dx.DoI.oRg/").data) rfl (by decide) (by decide)
      (fun v => rfl)
  refine ⟨by decide, by decide, by decide, ?_, ?_⟩
  · intro t
    exact ⟨(h1 t).trans (h2 t).symm, (h1 t).trans (h3 t).symm, (h1 t).trans (h4 t).symm⟩
  · intro s
    by_cases hemp : s.data.isEmpty = true
    · left
      unfold normalize_doi
      rw [if_pos hemp]
    · unfold normalize_doi
      rw [if_neg hemp]
      by_cases hg :
          (((stripSlashes (pyStrip (dropDoiUrlPfx (pyStrip s.data)))).map Char.toLower).contains ' '
            || !(((stripSlashes (pyStrip (dropDoiUrlPfx (pyStrip s.data)))).map Char.toLower).contains '/')) = true
      · left
        rw [if_pos hg]
      · right
        rw [if_neg hg]
        simp only [Bool.or_eq_true, Bool.not_eq_true', not_or] at hg
        refine ⟨Bool.eq_false_iff.mpr hg.1, Bool.ne_false_iff.mp hg.2, ?_⟩
        intro c hc
        obtain ⟨d, -, hd⟩ := List.mem_map.mp hc
        rw [← hd]
        exact toLower_toLower d

/-! ## Lemmas: page-range parsing -/

theorem dropWhile_append_all {p : Char → Bool} (w l : List Char) (hw : ∀ c ∈ w, p c = true) :
    List.dropWhile p (w ++ l) = List.dropWhile p l := by
  induction w with
  | nil => rfl
  | cons c cs ih =>
    rw [List.cons_append, List.dropWhile_cons, if_pos (hw c (List.mem_cons_self c cs))]
    exact ih fun x hx => hw x (List.mem_cons_of_mem c hx)

theorem takeWhile_append_all {p : Char → Bool} (d l : List Char) (hd : ∀ c ∈ d, p c = true) :
    List.takeWhile p (d ++ l) = d ++ List.takeWhile p l := by
  induction d with
  | nil => rfl
  | cons c cs ih =>
    rw [List.cons_append, List.takeWhile_cons, if_pos (hd c (List.mem_cons_self c cs)),
      ih (fun x hx => hd x (List.mem_cons_of_mem c hx)), List.cons_append]

theorem ws_not_digit (c : Char) (h : pySpaceChar c = true) : c.isDigit = false := by
  simp only [pySpaceChar, Bool.or_eq_true, beq_iff_eq] at h
  rcases h with ((((h | h) | h) | h) | h) | h <;> subst h <;> rfl

theorem digit_not_ws (c : Char) (h : c.isDigit = true) : pySpaceChar c = false := by
  cases hws : pySpaceChar c
  · rfl
  · rw [ws_not_digit c hws] at h
    simp at h

theorem dropWhile_of_head_fail {p : Char → Bool} (c : Char) (l : List Char) (h : p c = false) :
    List.dropWhile p (c :: l) = c :: l := by
  rw [List.dropWhile_cons, if_neg (by simp [h])]

theorem takeWhile_of_head_fail {p : Char → Bool} (c : Char) (l : List Char) (h : p c = false) :
    List.takeWhile p (c :: l) = [] := by
  rw [List.takeWhile_cons, if_neg (by simp [h])]


theorem parsePagesRange_sound (l : List Char) (a b : Nat)
    (hp : parsePagesRange l = some (a, b)) :
    ∃ w1 d1 w2 w3 d2 w4 : List Char,
      l = w1 ++ d1 ++ w2 ++ '-' :: (w3 ++ d2 ++ w4)
      ∧ (∀ c ∈ w1, pySpaceChar c = true) ∧ (∀ c ∈ w2, pySpaceChar c = true)
      ∧ (∀ c ∈ w3, pySpaceChar c = true) ∧ (∀ c ∈ w4, pySpaceChar c = true)
      ∧ d1 ≠ [] ∧ d2 ≠ []
      ∧ (∀ c ∈ d1, c.isDigit = true) ∧ (∀ c ∈ d2, c.isDigit = true)
      ∧ a = natOfDigits d1 ∧ b = natOfDigits d2 := by
  simp only [parsePagesRange] at hp
  split at hp
  · exact absurd hp (by simp)
  next h1 =>
    split at hp
    · exact absurd hp (by simp)
    next c t3 ht2 =>
      split at hp
      next hc =>
        subst hc
        split at hp
        · exact absurd hp (by simp)
        next h2 =>
          split at hp
          next h4 =>
            have hab := Option.some.inj hp
            have ha : a = natOfDigits ((l.dropWhile pySpaceChar).takeWhile Char.isDigit) :=
              (congrArg Prod.fst hab).symm
            have hb : b = natOfDigits ((t3.dropWhile pySpaceChar).takeWhile Char.isDigit) :=
              (congrArg Prod.snd hab).symm
            refine ⟨l.takeWhile pySpaceChar,
              (l.dropWhile pySpaceChar).takeWhile Char.isDigit,
              ((l.dropWhile pySpaceChar).dropWhile Char.isDigit).takeWhile pySpaceChar,
              t3.takeWhile pySpaceChar,
              (t3.dropWhile pySpaceChar).takeWhile Char.isDigit,
              (t3.dropWhile pySpaceChar).dropWhile Char.isDigit,
              ?_, ?_, ?_, ?_, ?_, ?_, ?_, ?_, ?_, ha, hb⟩
            · conv_lhs =>
                rw [← List.takeWhile_append_dropWhile pySpaceChar l,
                  ← List.takeWhile_append_dropWhile Char.isDigit (l.dropWhile pySpaceChar),
                  ← List.takeWhile_append_dropWhile pySpaceChar
                    ((l.dropWhile pySpaceChar).dropWhile Char.isDigit)]
              conv_lhs => rw [ht2]
              conv_lhs =>
                rw [← List.takeWhile_append_dropWhile pySpaceChar t3,
                  ← List.takeWhile_append_dropWhile Char.isDigit (t3.dropWhile pySpaceChar)]
              simp only [List.append_assoc]
            · exact fun x hx => List.mem_takeWhile_imp hx
            · exact fun x hx => List.mem_takeWhile_imp hx
            · exact fun x hx => List.mem_takeWhile_imp hx
            · exact fun x hx =>
                List.dropWhile_eq_nil_iff.mp (List.isEmpty_iff.mp h4) x hx
            · intro h
              apply h1
              rw [h]
              rfl
            · intro h
              apply h2
              rw [h]
              rfl
            · exact fun x hx => List.mem_takeWhile_imp hx
            · exact fun x hx => List.mem_takeWhile_imp hx
          · exact absurd hp (by simp)
      · exact absurd hp (by simp)

theorem parsePagesRange_complete (w1 w2 w3 w4 : List Char) (c1 c2 : Char)
    (d1 d2 : List Char)
    (hw1 : ∀ c ∈ w1, pySpaceChar c = true) (hw2 : ∀ c ∈ w2, pySpaceChar c = true)
    (hw3 : ∀ c ∈ w3, pySpaceChar c = true) (hw4 : ∀ c ∈ w4, pySpaceChar c = true)
    (hg1 : ∀ c ∈ c1 :: d1, c.isDigit = true) (hg2 : ∀ c ∈ c2 :: d2, c.isDigit = true) :
    parsePagesRange (w1 ++ ((c1 :: d1) ++ (w2 ++ '-' :: (w3 ++ ((c2 :: d2) ++ w4))))) =
      some (natOfDigits (c1 :: d1), natOfDigits (c2 :: d2)) := by
  have hskip2 : ∀ X : List Char, List.takeWhile Char.isDigit (w2 ++ '-' :: X) = [] := by
    intro X
    cases w2 with
    | nil => exact takeWhile_of_head_fail '-' X (by rfl)
    | cons cw w2' =>
      exact takeWhile_of_head_fail cw _ (ws_not_digit cw (hw2 cw (List.mem_cons_self cw w2')))
  have hid2 : ∀ X : List Char, List.dropWhile Char.isDigit (w2 ++ '-' :: X) = w2 ++ '-' :: X := by
    intro X
    cases w2 with
    | nil => exact dropWhile_of_head_fail '-' X (by rfl)
    | cons cw w2' =>
      exact dropWhile_of_head_fail cw _ (ws_not_digit cw (hw2 cw (List.mem_cons_self cw w2')))
  have hskip4 : List.takeWhile Char.isDigit w4 = [] := by
    cases w4 with
    | nil => rfl
    | cons cw w4' =>
      exact takeWhile_of_head_fail cw _ (ws_not_digit cw (hw4 cw (List.mem_cons_self cw w4')))
  have hid4 : List.dropWhile Char.isDigit w4 = w4 := by
    cases w4 with
    | nil => rfl
    | cons cw w4' =>
      exact dropWhile_of_head_fail cw _ (ws_not_digit cw (hw4 cw (List.mem_cons_self cw w4')))
  have hT1 : List.dropWhile pySpaceChar
        (w1 ++ ((c1 :: d1) ++ (w2 ++ '-' :: (w3 ++ ((c2 :: d2) ++ w4))))) =
      (c1 :: d1) ++ (w2 ++ '-' :: (w3 ++ ((c2 :: d2) ++ w4))) := by
    rw [dropWhile_append_all w1 _ hw1]
    exact dropWhile_of_head_fail c1 _ (digit_not_ws c1 (hg1 c1 (List.mem_cons_self c1 d1)))
  have hD1t : List.takeWhile Char.isDigit
        ((c1 :: d1) ++ (w2 ++ '-' :: (w3 ++ ((c2 :: d2) ++ w4)))) = c1 :: d1 := by
    rw [takeWhile_append_all (c1 :: d1) _ hg1, hskip2, List.append_nil]
  have hD1d : List.dropWhile Char.isDigit
        ((c1 :: d1) ++ (w2 ++ '-' :: (w3 ++ ((c2 :: d2) ++ w4)))) =
      w2 ++ '-' :: (w3 ++ ((c2 :: d2) ++ w4)) := by
    rw [dropWhile_append_all (c1 :: d1) _ hg1, hid2]
  have hT2 : List.dropWhile pySpaceChar (w2 ++ '-' :: (w3 ++ ((c2 :: d2) ++ w4))) =
      '-' :: (w3 ++ ((c2 :: d2) ++ w4)) := by
    rw [dropWhile_append_all w2 _ hw2]
    exact dropWhile_of_head_fail '-' _ (by rfl)
  have hT4 : List.dropWhile pySpaceChar (w3 ++ ((c2 :: d2) ++ w4)) = (c2 :: d2) ++ w4 := by
    rw [dropWhile_append_all w3 _ hw3]
    exact dropWhile_of_head_fail c2 _ (digit_not_ws c2 (hg2 c2 (List.mem_cons_self c2 d2)))
  have hD2t : List.takeWhile Char.isDigit ((c2 :: d2) ++ w4) = c2 :: d2 := by
    rw [takeWhile_append_all (c2 :: d2) _ hg2, hskip4, List.append_nil]
  have hD2d : List.dropWhile Char.isDigit ((c2 :: d2) ++ w4) = w4 := by
    rw [dropWhile_append_all (c2 :: d2) _ hg2, hid4]
  have hW4 : List.dropWhile pySpaceChar w4 = [] := List.dropWhile_eq_nil_iff.mpr hw4
  simp only [parsePagesRange, hT1, hD1t, hD1d, hT2, hT4, hD2t, hD2d, hW4]
  simp

/-! ## Claim C7 -/

/-- Claim C7: `pages_total` is set to `end - start + 1` exactly when the
journal page-range string matches `<int>-<int>` (the anchored pattern
`\s*(\d+)\s*-\s*(\d+)\s*$`) with the end at least the start, and is left
unset otherwise; `"100-110"` yields 11 and `"110-100"` yields nothing. -/
theorem claim_C7_pages_total :
    (∀ (s : String) (k : Nat), pagesTotal s = some k ↔
        ∃ a b, PagesDecomp s a b ∧ a ≤ b ∧ k = b - a + 1)
    ∧ pagesTotal ("100-110") = some 11
    ∧ pagesTotal ("110-100") = none := by
  refine ⟨?_, by decide, by decide⟩
  intro s k
  constructor
  · intro hk
    unfold pagesTotal at hk
    cases hp : parsePagesRange s.data with
    | none => rw [hp] at hk; exact absurd hk (by simp)
    | some ab =>
      obtain ⟨a, b⟩ := ab
      rw [hp] at hk
      change (if b ≥ a then some (b - a + 1) else none) = some k at hk
      by_cases hab : b ≥ a
      · rw [if_pos hab] at hk
        exact ⟨a, b, parsePagesRange_sound s.data a b hp, hab, (Option.some.inj hk).symm⟩
      · rw [if_neg hab] at hk
        exact absurd hk (by simp)
  · rintro ⟨a, b, ⟨w1, d1, w2, w3, d2, w4, hl, hw1, hw2, hw3, hw4, hd1, hd2, hg1, hg2, ha, hb⟩,
      hab, hk⟩
    obtain ⟨c1, d1', rfl⟩ := List.exists_cons_of_ne_nil hd1
    obtain ⟨c2, d2', rfl⟩ := List.exists_cons_of_ne_nil hd2
    have hp : parsePagesRange s.data = some (a, b) := by
      rw [hl, ha, hb]
      simp only [List.append_assoc]
      exact parsePagesRange_complete w1 w2 w3 w4 c1 c2 d1' d2' hw1 hw2 hw3 hw4 hg1 hg2
    unfold pagesTotal
    rw [hp]
    change (if b ≥ a then some (b - a + 1) else none) = some k
    rw [if_pos hab, hk]

/-- Witness for C7: the equivalence applied at the concrete input
`"100-110"` with result 11. -/
theorem claim_C7_witness :
    ∃ a b, PagesDecomp ("100-110") a b ∧ a ≤ b ∧ 11 = b - a + 1 :=
  (claim_C7_pages_total.1 ("100-110") 11).mp (by decide)

/-! ## Lemmas: column indexing -/

theorem colIdx_get (cols : List String) (c : String) :
    ∀ j, colIdx cols c = some j → cols.get? j = some c := by
  induction cols with
  | nil => intro j h; exact absurd h (by simp [colIdx])
  | cons c0 rest ih =>
    intro j h
    by_cases h0 : c0 = c
    · rw [colIdx, if_pos h0] at h
      have : j = 0 := (Option.some.inj h).symm
      subst this
      simp [h0]
    · rw [colIdx, if_neg h0] at h
      cases hrec : colIdx rest c with
      | none => rw [hrec] at h; exact absurd h (by simp)
      | some j' =>
        rw [hrec] at h
        have : j = j' + 1 := (Option.some.inj h).symm
        subst this
        simpa using ih j' hrec

theorem colIdx_lt (cols : List String) (c : String) (j : Nat) (h : colIdx cols c = some j) :
    j < cols.length := by
  have hg := colIdx_get cols c j h
  by_contra hge
  rw [List.get?_eq_none.mpr (by omega)] at hg
  exact absurd hg (by simp)

theorem colIdx_eq_none (cols : List String) (c : String) :
    colIdx cols c = none ↔ c ∉ cols := by
  induction cols with
  | nil => simp [colIdx]
  | cons c0 rest ih =>
    by_cases h0 : c0 = c
    · simp [colIdx, h0]
    · simp only [colIdx, if_neg h0, List.mem_cons]
      constructor
      · intro h hc
        rcases hc with hc | hc
        · exact h0 hc.symm
        · cases hrec : colIdx rest c with
          | none => exact (ih.mp hrec) hc
          | some j' => rw [hrec] at h; exact absurd h (by simp)
      · intro h
        have : c ∉ rest := fun hc => h (Or.inr hc)
        rw [ih.mpr this]
        rfl

theorem colIdx_append_left (l1 l2 : List String) (c : String) (h : c ∈ l1) :
    colIdx (l1 ++ l2) c = colIdx l1 c := by
  induction l1 with
  | nil => exact absurd h (by simp)
  | cons c0 rest ih =>
    rw [show (c0 :: rest) ++ l2 = c0 :: (rest ++ l2) from rfl]
    by_cases h0 : c0 = c
    · rw [colIdx, if_pos h0, colIdx, if_pos h0]
    · have hrest : c ∈ rest := by
        rcases List.mem_cons.mp h with hh | hh
        · exact absurd hh.symm h0
        · exact hh
      rw [colIdx, if_neg h0, colIdx, if_neg h0, ih hrest]

theorem colIdx_append_none (l1 l2 : List String) (c : String) (h1 : c ∉ l1) (h2 : c ∉ l2) :
    colIdx (l1 ++ l2) c = none :=
  (colIdx_eq_none _ _).mpr (by simp [h1, h2])

theorem colIdx_append_new (cols : List String) (c : String) (h : c ∉ cols) :
    colIdx (cols ++ [c]) c = some cols.length := by
  induction cols with
  | nil => rw [List.nil_append, colIdx, if_pos rfl]; rfl
  | cons c0 rest ih =>
    have h0 : c0 ≠ c := fun hh => h (hh ▸ List.mem_cons_self c0 rest)
    have hrest : c ∉ rest := fun hh => h (List.mem_cons_of_mem c0 hh)
    rw [show (c0 :: rest) ++ [c] = c0 :: (rest ++ [c]) from rfl, colIdx, if_neg h0, ih hrest]
    rfl

theorem colIdx_exists_of_mem (cols : List String) (c : String) (h : c ∈ cols) :
    ∃ j, colIdx cols c = some j := by
  cases hc : colIdx cols c with
  | none => exact absurd ((colIdx_eq_none cols c).mp hc) (by simp [h])
  | some j => exact ⟨j, rfl⟩

/-! ## Frame preservation

`FramePres S d d'` states that `d'` arose from `d` without touching rows or
any column outside `S`: same row count, the original columns as a prefix (in
order), well-formedness preserved, and every cell of a column outside `S`
unchanged. -/


theorem framePres_refl (S : List String) (d : DataFrame) : FramePres S d d :=
  ⟨rfl, ⟨[], by simp⟩, id, fun _ _ _ _ _ => rfl⟩

theorem framePres_trans {S : List String} {d1 d2 d3 : DataFrame}
    (h12 : FramePres S d1 d2) (h23 : FramePres S d2 d3) : FramePres S d1 d3 := by
  obtain ⟨hl12, ⟨e12, hc12⟩, hw12, hcell12⟩ := h12
  obtain ⟨hl23, ⟨e23, hc23⟩, hw23, hcell23⟩ := h23
  refine ⟨hl23.trans hl12, ⟨e12 ++ e23, by rw [hc23, hc12, List.append_assoc]⟩,
    fun hw => hw23 (hw12 hw), ?_⟩
  intro hw i c hc hs
  rw [hcell23 (hw12 hw) i c (by rw [hc12]; exact List.mem_append_left _ hc) hs]
  exact hcell12 hw i c hc hs

theorem framePres_setConstCol (S : List String) (d : DataFrame) (c : String) (v : Value)
    (hS : c ∈ S) : FramePres S d (setConstCol d c v) := by
  unfold setConstCol
  cases hidx : colIdx d.cols c with
  | some j =>
    refine ⟨by simp, ⟨[], by simp⟩, ?_, ?_⟩
    · intro hw r hr
      simp only [List.mem_map] at hr
      obtain ⟨r0, hr0, rfl⟩ := hr
      simpa using hw r0 hr0
    · intro hw i c' hc' hs'
      have hne : c' ≠ c := fun h => hs' (h ▸ hS)
      unfold getCellN
      cases hidx' : colIdx d.cols c' with
      | none => rfl
      | some j' =>
        have hjj : j' ≠ j := by
          intro h
          subst h
          have h1 := colIdx_get _ _ _ hidx
          have h2 := colIdx_get _ _ _ hidx'
          rw [h1] at h2
          exact hne (Option.some.inj h2).symm
        simp only [List.get?_map]
        cases hrow : d.rows.get? i with
        | none => rfl
        | some r =>
          simp only [Option.map_some, Option.some_bind]
          exact List.get?_set_ne v r hjj.symm
  | none =>
    refine ⟨by simp, ⟨[c], rfl⟩, ?_, ?_⟩
    · intro hw r hr
      simp only [List.mem_map] at hr
      obtain ⟨r0, hr0, rfl⟩ := hr
      simp [hw r0 hr0]
    · intro hw i c' hc' hs'
      unfold getCellN
      rw [colIdx_append_left d.cols [c] c' hc']
      cases hj' : colIdx d.cols c' with
      | none => rfl
      | some j' =>
        simp only [List.get?_map]
        cases hrow : d.rows.get? i with
        | none => rfl
        | some r =>
          simp only [Option.map_some, Option.some_bind]
          have hlen : j' < r.length := by
            rw [hw r (List.get?_mem hrow)]
            exact colIdx_lt d.cols c' j' hj'
          exact List.get?_append hlen

theorem framePres_setCell (S : List String) (d : DataFrame) (i : Nat) (c : String) (v : Value)
    (hS : c ∈ S) : FramePres S d (setCell d i c v) := by
  unfold setCell
  cases hidx : colIdx d.cols c with
  | none => exact framePres_refl S d
  | some j =>
    cases hrow : d.rows.get? i with
    | none => exact framePres_refl S d
    | some r =>
      refine ⟨List.length_set _ _ _, ⟨[], by simp⟩, ?_, ?_⟩
      · intro hw r' hr'
        rcases List.mem_or_eq_of_mem_set hr' with h | h
        · exact hw r' h
        · subst h
          simpa using hw r (List.get?_mem hrow)
      · intro hw i' c' hc' hs'
        have hne : c' ≠ c := fun h => hs' (h ▸ hS)
        unfold getCellN
        cases hidx' : colIdx d.cols c' with
        | none => rfl
        | some j' =>
          have hjj : j' ≠ j := by
            intro h
            subst h
            have h1 := colIdx_get _ _ _ hidx
            have h2 := colIdx_get _ _ _ hidx'
            rw [h1] at h2
            exact hne (Option.some.inj h2).symm
          by_cases hii : i' = i
          · subst hii
            rw [List.get?_set_eq, hrow]
            simp only [Option.map_some, Option.some_bind]
            exact List.get?_set_ne v r hjj.symm
          · rw [List.get?_set_ne _ _ (fun h => hii h.symm)]

theorem framePres_ensureCols (S L : List String) (hL : ∀ c ∈ L, c ∈ S) (d : DataFrame) :
    FramePres S d (ensureCols L d) := by
  induction L generalizing d with
  | nil => exact framePres_refl S d
  | cons c0 L' ih =>
    rw [ensureCols]
    have hstep : FramePres S d (if c0 ∈ d.cols then d else setConstCol d c0 (Value.str "")) := by
      by_cases hc : c0 ∈ d.cols
      · rw [if_pos hc]; exact framePres_refl S d
      · rw [if_neg hc]
        exact framePres_setConstCol S d c0 _ (hL c0 (List.mem_cons_self c0 L'))
    exact framePres_trans hstep (ih (fun c hc => hL c (List.mem_cons_of_mem c0 hc)) _)

theorem framePres_foldl {S : List String} (f : DataFrame → Nat → DataFrame)
    (hf : ∀ d i, FramePres S d (f d i)) (l : List Nat) :
    ∀ d, FramePres S d (l.foldl f d) := by
  induction l with
  | nil => intro d; exact framePres_refl S d
  | cons i l' ih =>
    intro d
    rw [List.foldl_cons]
    exact framePres_trans (hf d i) (ih (f d i))

theorem mem_setConstCol_self (d : DataFrame) (c : String) (v : Value) :
    c ∈ (setConstCol d c v).cols := by
  unfold setConstCol
  cases hidx : colIdx d.cols c with
  | some j => exact List.get?_mem (colIdx_get _ _ _ hidx)
  | none => simp

/-! ## Frame preservation of the per-row update -/

theorem framePres_stepAbstract (p : SPaper) (i : Nat) (d : DataFrame) :
    FramePres enrichTouchedCols d (stepAbstract p i d) := by
  unfold stepAbstract
  split
  · split
    · exact framePres_refl _ _
    · exact framePres_setCell _ _ _ _ _ (by decide)
  · exact framePres_refl _ _

theorem framePres_stepExternalDoi (ext : List (String × Value)) (i : Nat) (d : DataFrame) :
    FramePres enrichTouchedCols d (stepExternalDoi ext i d) := by
  unfold stepExternalDoi
  split
  · split
    · split
      · exact framePres_refl _ _
      · exact framePres_setCell _ _ _ _ _ (by decide)
    · exact framePres_refl _ _
  · exact framePres_refl _ _

theorem framePres_stepExternal (p : SPaper) (i : Nat) (d : DataFrame) :
    FramePres enrichTouchedCols d (stepExternal p i d) := by
  unfold stepExternal
  split
  · split
    · exact framePres_refl _ _
    · exact framePres_trans (framePres_setCell _ _ _ _ _ (by decide))
        (framePres_stepExternalDoi _ _ _)
  · exact framePres_refl _ _

theorem framePres_stepIsOpenAccess (p : SPaper) (i : Nat) (d : DataFrame) :
    FramePres enrichTouchedCols d (stepIsOpenAccess p i d) := by
  unfold stepIsOpenAccess
  split
  · exact framePres_setCell _ _ _ _ _ (by decide)
  · exact framePres_refl _ _

theorem framePres_stepOapDoi (url : String) (i : Nat) (d : DataFrame) :
    FramePres enrichTouchedCols d (stepOapDoi url i d) := by
  unfold stepOapDoi
  split
  · split
    · split
      · exact framePres_refl _ _
      · exact framePres_setCell _ _ _ _ _ (by decide)
    · exact framePres_refl _ _
  · exact framePres_refl _ _

theorem framePres_stepOpenAccessPdf (p : SPaper) (i : Nat) (d : DataFrame) :
    FramePres enrichTouchedCols d (stepOpenAccessPdf p i d) := by
  unfold stepOpenAccessPdf
  split
  · split
    · exact framePres_refl _ _
    · exact framePres_trans (framePres_setCell _ _ _ _ _ (by decide))
        (framePres_stepOapDoi _ _ _)
  · exact framePres_refl _ _

theorem framePres_stepPagesTotal (s : String) (i : Nat) (d : DataFrame) :
    FramePres enrichTouchedCols d (stepPagesTotal s i d) := by
  unfold stepPagesTotal
  split
  · exact framePres_setCell _ _ _ _ _ (by decide)
  · exact framePres_refl _ _

theorem framePres_stepJournal (p : SPaper) (i : Nat) (d : DataFrame) :
    FramePres enrichTouchedCols d (stepJournal p i d) := by
  unfold stepJournal
  split
  · exact framePres_trans (framePres_setCell _ _ _ _ _ (by decide))
      (framePres_stepPagesTotal _ _ _)
  · exact framePres_refl _ _

theorem framePres_stepRefCount (p : SPaper) (i : Nat) (d : DataFrame) :
    FramePres enrichTouchedCols d (stepRefCount p i d) := by
  unfold stepRefCount
  split
  · exact framePres_setCell _ _ _ _ _ (by decide)
  · exact framePres_refl _ _

theorem framePres_stepCitCount (p : SPaper) (i : Nat) (d : DataFrame) :
    FramePres enrichTouchedCols d (stepCitCount p i d) := by
  unfold stepCitCount
  split
  · exact framePres_setCell _ _ _ _ _ (by decide)
  · exact framePres_refl _ _

theorem framePres_stepHIndex (ai : List (String × AuthorRec)) (p : SPaper) (i : Nat)
    (d : DataFrame) : FramePres enrichTouchedCols d (stepHIndex ai p i d) := by
  unfold stepHIndex
  split
  · exact framePres_refl _ _
  · exact framePres_trans (framePres_setCell _ _ _ _ _ (by decide))
      (framePres_setCell _ _ _ _ _ (by decide))

theorem framePres_stepMcy (mcy : String → Option Int) (pid : String) (i : Nat) (d : DataFrame) :
    FramePres enrichTouchedCols d (stepMcy mcy pid i d) := by
  unfold stepMcy
  split
  · exact framePres_setCell _ _ _ _ _ (by decide)
  · exact framePres_refl _ _

theorem framePres_updateRow (papers : List SPaper) (ai : List (String × AuthorRec))
    (mcy : String → Option Int) (d : DataFrame) (i : Nat) :
    FramePres enrichTouchedCols d (updateRow papers ai mcy d i) := by
  unfold updateRow
  split
  · exact framePres_refl _ _
  · exact framePres_trans (framePres_stepAbstract _ _ _)
      (framePres_trans (framePres_stepExternal _ _ _)
        (framePres_trans (framePres_stepIsOpenAccess _ _ _)
          (framePres_trans (framePres_stepOpenAccessPdf _ _ _)
            (framePres_trans (framePres_stepJournal _ _ _)
              (framePres_trans (framePres_stepRefCount _ _ _)
                (framePres_trans (framePres_stepCitCount _ _ _)
                  (framePres_trans (framePres_stepHIndex _ _ _ _)
                    (framePres_stepMcy _ _ _ _))))))))

/-! ## Lemmas: column values under `setConstCol` / `ensureCols` / `projectCols` -/

theorem setConstCol_cols (d : DataFrame) (c : String) (v : Value) :
    (setConstCol d c v).cols = if c ∈ d.cols then d.cols else d.cols ++ [c] := by
  unfold setConstCol
  cases hidx : colIdx d.cols c with
  | some j => rw [if_pos (List.get?_mem (colIdx_get _ _ _ hidx))]
  | none => rw [if_neg ((colIdx_eq_none _ _).mp hidx)]

theorem setConstCol_rows_length (d : DataFrame) (c : String) (v : Value) :
    (setConstCol d c v).rows.length = d.rows.length := by
  unfold setConstCol
  cases colIdx d.cols c <;> simp

theorem getColN_setConstCol_self (d : DataFrame) (c : String) (v : Value) (hwf : d.WF) :
    getColN (setConstCol d c v) c = some (List.replicate d.rows.length v) := by
  cases hidx : colIdx d.cols c with
  | some j =>
    have hsc : setConstCol d c v = { cols := d.cols, rows := d.rows.map fun r => r.set j v } := by
      unfold setConstCol; rw [hidx]
    rw [hsc]
    unfold getColN
    simp only [hidx]
    congr 1
    rw [List.map_map]
    refine List.eq_replicate_iff.mpr ⟨by simp, ?_⟩
    intro b hb
    simp only [List.mem_map, Function.comp] at hb
    obtain ⟨r, hr, rfl⟩ := hb
    have hj : j < r.length := by
      rw [hwf r hr]
      exact colIdx_lt _ _ _ hidx
    obtain ⟨x, hx⟩ : ∃ x, r.get? j = some x := by
      cases hg : r.get? j with
      | none => rw [List.get?_eq_none] at hg; omega
      | some x => exact ⟨x, rfl⟩
    rw [List.getD_eq_get?, List.get?_set_eq, hx]
    rfl
  | none =>
    have hnm : c ∉ d.cols := (colIdx_eq_none _ _).mp hidx
    have hsc : setConstCol d c v = { cols := d.cols ++ [c], rows := d.rows.map fun r => r ++ [v] } := by
      unfold setConstCol; rw [hidx]
    rw [hsc]
    unfold getColN
    simp only [colIdx_append_new d.cols c hnm]
    congr 1
    rw [List.map_map]
    refine List.eq_replicate_iff.mpr ⟨by simp, ?_⟩
    intro b hb
    simp only [List.mem_map, Function.comp] at hb
    obtain ⟨r, hr, rfl⟩ := hb
    have hlen : r.length = d.cols.length := hwf r hr
    rw [List.getD_eq_get?, List.get?_append_right (le_of_eq hlen), hlen, Nat.sub_self]
    rfl

theorem getColN_setConstCol_ne (d : DataFrame) (c : String) (v : Value) (c' : String)
    (hwf : d.WF) (hne : c' ≠ c) :
    getColN (setConstCol d c v) c' = getColN d c' := by
  cases hidx : colIdx d.cols c with
  | some j =>
    have hsc : setConstCol d c v = { cols := d.cols, rows := d.rows.map fun r => r.set j v } := by
      unfold setConstCol; rw [hidx]
    rw [hsc]
    unfold getColN
    cases hidx' : colIdx d.cols c' with
    | none => rfl
    | some j' =>
      have hjj : j ≠ j' := by
        intro h
        subst h
        have h1 := colIdx_get _ _ _ hidx
        have h2 := colIdx_get _ _ _ hidx'
        rw [h1] at h2
        exact hne (Option.some.inj h2).symm
      show some _ = some _
      congr 1
      rw [List.map_map]
      refine List.map_eq_map_iff.mpr ?_
      intro r _
      simp only [Function.comp]
      rw [List.getD_eq_get?, List.getD_eq_get?, List.get?_set_ne v r hjj]
  | none =>
    have hnm : c ∉ d.cols := (colIdx_eq_none _ _).mp hidx
    have hsc : setConstCol d c v = { cols := d.cols ++ [c], rows := d.rows.map fun r => r ++ [v] } := by
      unfold setConstCol; rw [hidx]
    rw [hsc]
    unfold getColN
    have hci : colIdx (d.cols ++ [c]) c' = colIdx d.cols c' := by
      by_cases hmem : c' ∈ d.cols
      · exact colIdx_append_left _ _ _ hmem
      · rw [colIdx_append_none _ _ _ hmem (by simp [hne]), (colIdx_eq_none _ _).mpr hmem]
    simp only [hci]
    cases hidx' : colIdx d.cols c' with
    | none => rfl
    | some j' =>
      show some _ = some _
      congr 1
      rw [List.map_map]
      refine List.map_eq_map_iff.mpr ?_
      intro r hr
      simp only [Function.comp]
      have hlt : j' < r.length := by
        rw [hwf r hr]
        exact colIdx_lt _ _ _ hidx'
      rw [List.getD_eq_get?, List.getD_eq_get?, List.get?_append hlt]

theorem ensureCols_wf_parts (L : List String) (d : DataFrame) (hwf : d.WF) :
    (ensureCols L d).rows.length = d.rows.length ∧ (ensureCols L d).WF := by
  have h := framePres_ensureCols L L (fun _ hc => hc) d
  exact ⟨h.1, h.2.2.1 hwf⟩

theorem getColN_ensureCols_old (L : List String) (d : DataFrame) (hwf : d.WF) (c : String)
    (hc : c ∈ d.cols) : getColN (ensureCols L d) c = getColN d c := by
  induction L generalizing d with
  | nil => rfl
  | cons c0 L' ih =>
    rw [ensureCols]
    by_cases h0 : c0 ∈ d.cols
    · rw [if_pos h0]
      exact ih d hwf hc
    · rw [if_neg h0]
      have hne : c ≠ c0 := fun h => h0 (h ▸ hc)
      have hd1wf : (setConstCol d c0 (Value.str "")).WF :=
        (framePres_setConstCol [c0] d c0 _ (by simp)).2.2.1 hwf
      have hc1 : c ∈ (setConstCol d c0 (Value.str "")).cols := by
        rw [setConstCol_cols, if_neg h0]
        exact List.mem_append_left _ hc
      rw [ih _ hd1wf hc1]
      exact getColN_setConstCol_ne d c0 _ c hwf hne

theorem mem_ensureCols (L : List String) (d : DataFrame) (c : String) (hcL : c ∈ L) :
    c ∈ (ensureCols L d).cols := by
  induction L generalizing d with
  | nil => exact absurd hcL (by simp)
  | cons c0 L' ih =>
    rw [ensureCols]
    rcases List.mem_cons.mp hcL with hc0 | hcL'
    · subst hc0
      have hmem : c ∈ (if c ∈ d.cols then d else setConstCol d c (Value.str "")).cols := by
        by_cases h0 : c ∈ d.cols
        · rw [if_pos h0]; exact h0
        · rw [if_neg h0]; exact mem_setConstCol_self d c _
      obtain ⟨ext, hext⟩ := (framePres_ensureCols L' L' (fun _ hc => hc) _).2.1
      rw [hext]
      exact List.mem_append_left _ hmem
    · exact ih _ hcL'

theorem getColN_ensureCols_new (L : List String) (d : DataFrame) (hwf : d.WF) (c : String)
    (hcL : c ∈ L) (hnc : c ∉ d.cols) :
    getColN (ensureCols L d) c = some (List.replicate d.rows.length (Value.str "")) := by
  induction L generalizing d with
  | nil => exact absurd hcL (by simp)
  | cons c0 L' ih =>
    rw [ensureCols]
    by_cases h0 : c0 ∈ d.cols
    · rw [if_pos h0]
      have hcL' : c ∈ L' := by
        rcases List.mem_cons.mp hcL with hc0 | hcL'
        · exact absurd (hc0 ▸ h0) hnc
        · exact hcL'
      exact ih d hwf hcL' hnc
    · rw [if_neg h0]
      have hd1wf : (setConstCol d c0 (Value.str "")).WF :=
        (framePres_setConstCol [c0] d c0 _ (by simp)).2.2.1 hwf
      by_cases hcc : c = c0
      · subst hcc
        have hm : c ∈ (setConstCol d c (Value.str "")).cols := mem_setConstCol_self d c _
        rw [getColN_ensureCols_old L' _ hd1wf c hm, getColN_setConstCol_self d c _ hwf]
      · have hnc1 : c ∉ (setConstCol d c0 (Value.str "")).cols := by
          rw [setConstCol_cols, if_neg h0]
          simp only [List.mem_append, List.mem_singleton]
          rintro (h | h)
          · exact hnc h
          · exact hcc h
        have hcL' : c ∈ L' := by
          rcases List.mem_cons.mp hcL with hc0 | hcL'
          · exact absurd hc0 hcc
          · exact hcL'
        rw [ih _ hd1wf hcL' hnc1, setConstCol_rows_length]

theorem projectCols_rows_length (d : DataFrame) (L : List String) :
    (projectCols d L).rows.length = d.rows.length := by
  simp [projectCols]

theorem projectCols_WF (d : DataFrame) (L : List String) : (projectCols d L).WF := by
  intro r hr
  simp only [projectCols, List.mem_map] at hr
  obtain ⟨r0, _, rfl⟩ := hr
  simp [projectCols]

theorem getColN_projectCols (d : DataFrame) (L : List String) (c : String) (hcL : c ∈ L) :
    getColN (projectCols d L) c = some (d.rows.map fun r => rowGetD d.cols r c) := by
  unfold getColN projectCols
  obtain ⟨j, hj⟩ := colIdx_exists_of_mem L c hcL
  simp only [hj]
  congr 1
  rw [List.map_map]
  refine List.map_eq_map_iff.mpr ?_
  intro r _
  simp only [Function.comp]
  rw [List.getD_eq_get?, List.get?_map, colIdx_get L c j hj]
  rfl

theorem getColN_projectCols_none (d : DataFrame) (L : List String) (c : String) (hcL : c ∉ L) :
    getColN (projectCols d L) c = none := by
  unfold getColN projectCols
  simp only [(colIdx_eq_none L c).mpr hcL]

theorem getColN_projectCols_mem (d : DataFrame) (L : List String) (c : String)
    (hcL : c ∈ L) (hcd : c ∈ d.cols) :
    getColN (projectCols d L) c = getColN d c := by
  rw [getColN_projectCols d L c hcL]
  unfold getColN
  obtain ⟨j, hj⟩ := colIdx_exists_of_mem d.cols c hcd
  simp only [hj]
  congr 1
  refine List.map_eq_map_iff.mpr ?_
  intro r _
  unfold rowGetD
  rw [hj]

/-! ## Claim C8 -/

/-- Claim C8: `export_extracted` produces exactly the fixed ordered export
schema — schema columns missing from the input are added with the
empty-string default, columns outside the schema are discarded, schema
columns present in the input keep their values, and the row count is
preserved (the projection is what is written as the single sheet). -/
theorem claim_C8_export_schema (df : DataFrame) (hwf : df.WF) :
    (export_extracted df).cols = DATA_COLUMNS
    ∧ (export_extracted df).rows.length = df.rows.length
    ∧ (export_extracted df).WF
    ∧ (∀ c ∈ DATA_COLUMNS, c ∉ df.cols →
        getColN (export_extracted df) c = some (List.replicate df.rows.length (Value.str "")))
    ∧ (∀ c ∈ DATA_COLUMNS, c ∈ df.cols →
        getColN (export_extracted df) c = getColN df c)
    ∧ (∀ c, c ∉ DATA_COLUMNS → getColN (export_extracted df) c = none) := by
  obtain ⟨hlen, hewf⟩ := ensureCols_wf_parts DATA_COLUMNS df hwf
  have hpfx := (framePres_ensureCols DATA_COLUMNS DATA_COLUMNS (fun _ hc => hc) df).2.1
  refine ⟨rfl, ?_, projectCols_WF _ _, ?_, ?_, ?_⟩
  · rw [show (export_extracted df).rows.length = (ensureCols DATA_COLUMNS df).rows.length from
      projectCols_rows_length _ _, hlen]
  · intro c hcD hnc
    rw [show export_extracted df = projectCols (ensureCols DATA_COLUMNS df) DATA_COLUMNS from rfl,
      getColN_projectCols_mem _ _ _ hcD (mem_ensureCols _ _ _ hcD),
      getColN_ensureCols_new DATA_COLUMNS df hwf c hcD hnc]
  · intro c hcD hcd
    have hmem : c ∈ (ensureCols DATA_COLUMNS df).cols := by
      obtain ⟨ext, hext⟩ := hpfx
      rw [hext]
      exact List.mem_append_left _ hcd
    rw [show export_extracted df = projectCols (ensureCols DATA_COLUMNS df) DATA_COLUMNS from rfl,
      getColN_projectCols_mem _ _ _ hcD hmem,
      getColN_ensureCols_old DATA_COLUMNS df hwf c hcd]
  · intro c hnc
    exact getColN_projectCols_none _ _ _ hnc

/-- Witness for C8 at a concrete one-row frame. -/
theorem claim_C8_witness : (export_extracted dfW).cols = DATA_COLUMNS :=
  (claim_C8_export_schema dfW (by decide)).1

/-! ## Lemmas: branches of `enrichExtract` -/

theorem enrichExtract_abort_paper (df : DataFrame) (bs : Nat) (o : S2Oracle)
    (hm : enrichPapers df bs o = none) :
    enrichExtract df bs o = setConstCol df "s2_enriched" (Value.bool false) := by
  unfold enrichExtract
  rw [hm]

theorem enrichExtract_abort_author (df : DataFrame) (bs : Nat) (o : S2Oracle)
    (papers : List SPaper) (hm : enrichPapers df bs o = some papers)
    (ha : enrichAuthorRecs bs o papers = none) :
    enrichExtract df bs o = setConstCol df "s2_enriched" (Value.bool false) := by
  unfold enrichExtract
  rw [hm]
  show (match enrichAuthorRecs bs o papers with
    | none => setConstCol df "s2_enriched" (Value.bool false)
    | some arecs => enrichSuccess df o papers arecs) =
      setConstCol df "s2_enriched" (Value.bool false)
  rw [ha]

theorem enrichExtract_success (df : DataFrame) (bs : Nat) (o : S2Oracle)
    (papers : List SPaper) (arecs : List AuthorRec) (hm : enrichPapers df bs o = some papers)
    (ha : enrichAuthorRecs bs o papers = some arecs) :
    enrichExtract df bs o = enrichSuccess df o papers arecs := by
  unfold enrichExtract
  rw [hm]
  show (match enrichAuthorRecs bs o papers with
    | none => setConstCol df "s2_enriched" (Value.bool false)
    | some arecs => enrichSuccess df o papers arecs) = enrichSuccess df o papers arecs
  rw [ha]

theorem framePres_enrichSuccess (df : DataFrame) (o : S2Oracle) (papers : List SPaper)
    (arecs : List AuthorRec) :
    FramePres enrichTouchedCols df (enrichSuccess df o papers arecs) := by
  unfold enrichSuccess
  exact framePres_trans (framePres_ensureCols enrichTouchedCols enrichEnsureCols (by decide) df)
    (framePres_trans
      (framePres_foldl (updateRow papers (buildAuthorInfo arecs) (enrichMcy df o))
        (fun d i => framePres_updateRow _ _ _ d i)
        (List.range (ensureCols enrichEnsureCols df).rows.length)
        (ensureCols enrichEnsureCols df))
      (framePres_setConstCol _ _ _ _ (by decide)))

/-! ## Claim C4 -/

/-- Claim C4: on any paper-batch or author-batch failure, `enrich_extract`
aborts immediately and the returned dataset is the input with only a false
`s2_enriched` flag — same rows, no other column added, the values of every
other column unchanged, and in particular no paper field partially populated. -/
theorem claim_C4_batch_failure_all_or_nothing (df : DataFrame) (bs : Nat) (o : S2Oracle)
    (hwf : df.WF) (hab : enrichAborts df bs o = true) :
    (enrichExtract df bs o).rows.length = df.rows.length
    ∧ (enrichExtract df bs o).cols =
        (if "s2_enriched" ∈ df.cols then df.cols else df.cols ++ ["s2_enriched"])
    ∧ getColN (enrichExtract df bs o) "s2_enriched" =
        some (List.replicate df.rows.length (Value.bool false))
    ∧ (∀ c, c ≠ "s2_enriched" → getColN (enrichExtract df bs o) c = getColN df c) := by
  have hout : enrichExtract df bs o = setConstCol df "s2_enriched" (Value.bool false) := by
    unfold enrichAborts at hab
    cases hm : enrichPapers df bs o with
    | none => exact enrichExtract_abort_paper df bs o hm
    | some papers =>
      rw [hm] at hab
      have hab2 : (enrichAuthorRecs bs o papers).isNone = true := hab
      exact enrichExtract_abort_author df bs o papers hm (Option.isNone_iff_eq_none.mp hab2)
  rw [hout]
  exact ⟨setConstCol_rows_length df _ _, setConstCol_cols df _ _,
    getColN_setConstCol_self df _ _ hwf,
    fun c hc => getColN_setConstCol_ne df _ _ c hwf hc⟩

/-- Witness for C4 at a concrete input: a one-row frame and an oracle whose
paper-batch call always fails. -/
theorem claim_C4_witness :
    (enrichExtract dfW 2 oW).rows.length = dfW.rows.length
    ∧ (enrichExtract dfW 2 oW).cols =
        (if "s2_enriched" ∈ dfW.cols then dfW.cols else dfW.cols ++ ["s2_enriched"])
    ∧ getColN (enrichExtract dfW 2 oW) "s2_enriched" =
        some (List.replicate dfW.rows.length (Value.bool false))
    ∧ (∀ c, c ≠ "s2_enriched" → getColN (enrichExtract dfW 2 oW) c = getColN dfW c) :=
  claim_C4_batch_failure_all_or_nothing dfW 2 oW (by decide) (by decide)

/-! ## Claim C9 -/

/-- Claim C9: for every outcome of `enrich_extract` (enriched or aborted),
the returned frame has exactly the input rows in order (same count, and
every cell of a column the enrichment does not write is unchanged at every
row position), retains every input column with the original columns as a
prefix, stays well-formed, and carries an `s2_enriched` column. -/
theorem claim_C9_enrich_frame_effect (df : DataFrame) (bs : Nat) (o : S2Oracle) (hwf : df.WF) :
    (enrichExtract df bs o).rows.length = df.rows.length
    ∧ (∃ ext, (enrichExtract df bs o).cols = df.cols ++ ext)
    ∧ "s2_enriched" ∈ (enrichExtract df bs o).cols
    ∧ (enrichExtract df bs o).WF
    ∧ ∀ (i : Nat) (c : String), c ∈ df.cols → c ∉ enrichTouchedCols →
        getCellN (enrichExtract df bs o) i c = getCellN df i c := by
  have hmain : FramePres enrichTouchedCols df (enrichExtract df bs o)
      ∧ "s2_enriched" ∈ (enrichExtract df bs o).cols := by
    cases hm : enrichPapers df bs o with
    | none =>
      rw [enrichExtract_abort_paper df bs o hm]
      exact ⟨framePres_setConstCol _ _ _ _ (by decide), mem_setConstCol_self _ _ _⟩
    | some papers =>
      cases ha : enrichAuthorRecs bs o papers with
      | none =>
        rw [enrichExtract_abort_author df bs o papers hm ha]
        exact ⟨framePres_setConstCol _ _ _ _ (by decide), mem_setConstCol_self _ _ _⟩
      | some arecs =>
        rw [enrichExtract_success df bs o papers arecs hm ha]
        refine ⟨framePres_enrichSuccess df o papers arecs, ?_⟩
        unfold enrichSuccess
        exact mem_setConstCol_self _ _ _
  obtain ⟨⟨hlen, hpfx, hwfp, hcells⟩, hflag⟩ := hmain
  exact ⟨hlen, hpfx, hflag, hwfp hwf, hcells hwf⟩

/-- Witness for C9 at a concrete input (a two-row frame and a successful
oracle). -/
theorem claim_C9_witness :
    (enrichExtract dfW2 2 oW2).rows.length = dfW2.rows.length
    ∧ (∃ ext, (enrichExtract dfW2 2 oW2).cols = dfW2.cols ++ ext)
    ∧ "s2_enriched" ∈ (enrichExtract dfW2 2 oW2).cols
    ∧ (enrichExtract dfW2 2 oW2).WF
    ∧ ∀ (i : Nat) (c : String), c ∈ dfW2.cols → c ∉ enrichTouchedCols →
        getCellN (enrichExtract dfW2 2 oW2) i c = getCellN dfW2 i c :=
  claim_C9_enrich_frame_effect dfW2 2 oW2 (by decide)

/-! ## Lemmas: pagination walk (`run_mode`) -/

theorem tokenTruthy_exists (t : Option String) (h : tokenTruthy t = true) :
    ∃ s, t = some s ∧ s ≠ "" := by
  cases t with
  | none => exact absurd h (by simp [tokenTruthy])
  | some s =>
    refine ⟨s, rfl, ?_⟩
    simp only [tokenTruthy, Bool.not_eq_true'] at h
    intro hs
    rw [hs] at h
    exact absurd h (by decide)

theorem runModeGo_spec (srv : Option String → BulkResponse)
    (hall : ∀ t, (srv t).status = 200) :
    ∀ (fuel : Nat) (t0 : Option String) (reqs : List (Option String)) (recs : List Nat),
      runModeGo srv fuel t0 = (reqs, recs, true) →
      reqs ≠ []
      ∧ reqs.getD 0 none = t0
      ∧ (∀ i, i + 1 < reqs.length →
          ∃ t, (srv (reqs.getD i none)).token = some t ∧ t ≠ ""
            ∧ reqs.getD (i + 1) none = some t)
      ∧ (∀ tl, reqs.getLast? = some tl → tokenTruthy (srv tl).token = false)
      ∧ recs = (reqs.map fun t => (srv t).data).flatten := by
  intro fuel
  induction fuel with
  | zero =>
    intro t0 reqs recs h
    rw [runModeGo] at h
    simp only [Prod.mk.injEq] at h
    exact absurd h.2.2 (by simp)
  | succ fuel ih =>
    intro t0 reqs recs h
    rw [runModeGo] at h
    rw [if_neg (by rw [hall t0]; simp)] at h
    by_cases htok : tokenTruthy (srv t0).token = true
    · rw [if_pos htok] at h
      rcases hreq : runModeGo srv fuel ((srv t0).token) with ⟨reqs', recs', fin'⟩
      rw [hreq] at h
      simp only [Prod.mk.injEq] at h
      obtain ⟨h1, h2, h3⟩ := h
      subst h1 h2
      rw [h3] at hreq
      obtain ⟨hne', hhead', hchain', hlast', hjoin'⟩ := ih ((srv t0).token) reqs' recs' hreq
      obtain ⟨tk, htk, htkne⟩ := tokenTruthy_exists _ htok
      refine ⟨by simp, List.getD_cons_zero, ?_, ?_, ?_⟩
      · intro i hi
        cases i with
        | zero =>
          refine ⟨tk, by rw [List.getD_cons_zero, htk], htkne, ?_⟩
          rw [List.getD_cons_succ, hhead', htk]
        | succ k =>
          rw [List.getD_cons_succ, List.getD_cons_succ]
          exact hchain' k (by simpa using hi)
      · intro tl htl
        obtain ⟨r0, rrest, hr0⟩ := List.exists_cons_of_ne_nil hne'
        rw [hr0, List.getLast?_cons_cons] at htl
        apply hlast'
        rw [hr0]
        exact htl
      · rw [List.map_cons, List.flatten_cons, hjoin']
    · rw [if_neg htok] at h
      simp only [Prod.mk.injEq] at h
      obtain ⟨h1, h2, _⟩ := h
      subst h1 h2
      refine ⟨by simp, List.getD_cons_zero, ?_, ?_, ?_⟩
      · intro i hi
        simp at hi
      · intro tl htl
        simp only [List.getLast?_singleton] at htl
        obtain rfl : t0 = tl := Option.some.inj htl
        simpa using htok
      · simp

/-! ## Claim C5 -/


/-- Claim C5, counterexample to the claim as stated: against `srvCE`,
`run_mode` stops after the very first page even though that response does
*not* omit its token (it carries `some ""`), so the record behind the token
is never collected — the walk does not continue "exactly until a response
omits a token". -/
theorem claim_C5_counterexample :
    runModeGo srvCE 5 none = ([none], [1], true)
    ∧ (srvCE none).token = some ""
    ∧ (srvCE (some "")).data = [2] := by
  refine ⟨by decide, rfl, rfl⟩

/-- Claim C5 (amended): for every terminating all-200 pagination walk, the
first request carries no continuation token, every subsequent request carries
exactly the (non-empty) token of the previous response with the search
parameters fixed, the walk stops exactly when a response omits a token **or
carries an empty-string token** (Python truthiness of `page_json.get('token')`),
and the accumulated record list is the concatenation of the records of every
page
in fetch order — no record skipped, duplicated or reordered. -/
theorem claim_C5_pagination (srv : Option String → BulkResponse) (fuel : Nat)
    (reqs : List (Option String)) (recs : List Nat)
    (hall : ∀ t, (srv t).status = 200)
    (hrun : runModeGo srv fuel none = (reqs, recs, true)) :
    reqs ≠ []
    ∧ reqs.getD 0 none = none
    ∧ (∀ i, i + 1 < reqs.length →
        ∃ t, (srv (reqs.getD i none)).token = some t ∧ t ≠ ""
          ∧ reqs.getD (i + 1) none = some t)
    ∧ (∀ tl, reqs.getLast? = some tl → tokenTruthy (srv tl).token = false)
    ∧ recs = (reqs.map fun t => (srv t).data).flatten :=
  runModeGo_spec srv hall fuel none reqs recs hrun


/-- Witness for C5: the amended pagination property applied to a concrete
two-page walk. -/
theorem claim_C5_witness :
    ([none, some "T"] : List (Option String)) ≠ []
    ∧ ([none, some "T"] : List (Option String)).getD 0 none = none
    ∧ (∀ i, i + 1 < ([none, some "T"] : List (Option String)).length →
        ∃ t, (srvW (([none, some "T"] : List (Option String)).getD i none)).token = some t
          ∧ t ≠ "" ∧ ([none, some "T"] : List (Option String)).getD (i + 1) none = some t)
    ∧ (∀ tl, ([none, some "T"] : List (Option String)).getLast? = some tl →
        tokenTruthy (srvW tl).token = false)
    ∧ [1, 2, 3] = (([none, some "T"] : List (Option String)).map fun t => (srvW t).data).flatten :=
  claim_C5_pagination srvW 3 [none, some "T"] [1, 2, 3]
    (fun t => by
      cases t with
      | none => rfl
      | some s =>
        simp only [srvW]
        split <;> rfl)
    (by decide)

end SLR
